import Mathlib

/-!
# Verification of the x402-toolkit payment-gate core

Shallow embedding of the x402 micropayment toolkit: canonical request
hashing (`hash.ts`), the mock HMAC payer/verifier (`mock/payer.ts`,
`mock/verifier.ts`), the on-chain Solana USDC verifier
(`solana/verifier.ts`), the payment-gate middleware (`middleware.ts`),
and the client retry loop (`fetch.ts`). Machine integers are modelled as
`Nat`/`Int` with explicit reduction modulo `2 ^ 32` where the source
relies on 32-bit wrapping; platform built-ins (SHA-256, HMAC, base64url,
`JSON.parse`, `URLSearchParams`, `localeCompare`, `Date`) are modelled as
executable Lean functions documented at their definitions.
-/

set_option maxRecDepth 20000

namespace X402

/-! ## Bytes (as `Nat` below 256), 32-bit words, hex -/

/-- 32-bit wrap-around addition. -/
def add32 (a b : Nat) : Nat := (a + b) % 4294967296

/-- 32-bit bitwise complement (xor with the all-ones mask). -/
def not32 (a : Nat) : Nat := a ^^^ 4294967295

/-- Rotate a 32-bit word right by `n` bits. -/
def rotr32 (x n : Nat) : Nat :=
  ((x >>> n) ||| (x <<< (32 - n))) % 4294967296

/-- Lower-case hex digit for a value below 16. -/
def hexDigit (n : Nat) : Char :=
  if n < 10 then Char.ofNat (48 + n) else Char.ofNat (87 + n)

/-- Two-digit lowercase hex rendering of a byte. -/
def hexByte (b : Nat) : List Char := [hexDigit (b / 16), hexDigit (b % 16)]

/-- Lowercase hex string of a byte list (as produced by Node's
`digest('hex')`). -/
def hexOfBytes (bs : List Nat) : String :=
  ⟨bs.flatMap hexByte⟩

/-! ## UTF-8 encoding (model of Node's `utf8` encoding of strings) -/

/-- UTF-8 encoding of a single Unicode scalar value. -/
def utf8Char (c : Char) : List Nat :=
  let n := c.toNat
  if n < 0x80 then [n]
  else if n < 0x800 then
    [0xC0 ||| (n >>> 6), 0x80 ||| (n &&& 0x3F)]
  else if n < 0x10000 then
    [0xE0 ||| (n >>> 12), 0x80 ||| ((n >>> 6) &&& 0x3F), 0x80 ||| (n &&& 0x3F)]
  else
    [0xF0 ||| (n >>> 18), 0x80 ||| ((n >>> 12) &&& 0x3F),
     0x80 ||| ((n >>> 6) &&& 0x3F), 0x80 ||| (n &&& 0x3F)]

/-- UTF-8 bytes of a string. -/
def utf8Bytes (s : String) : List Nat := s.data.flatMap utf8Char

/-! ## SHA-256 (model of Node `crypto.createHash('sha256')`),
translated from FIPS 180-4; arithmetic is `Nat` reduced mod `2 ^ 32`. -/

/-- SHA-256 initial hash state `H0..H7` (FIPS 180-4 words, written in
decimal). -/
def sha256IV : List Nat :=
  [1779033703, 3144134277, 1013904242, 2773480762,
   1359893119, 2600822924, 528734635, 1541459225]

/-- The 64 SHA-256 round constants (decimal). -/
def sha256K : List Nat :=
  [1116352408, 1899447441, 3049323471, 3921009573, 961987163, 1508970993,
   2453635748, 2870763221, 3624381080, 310598401, 607225278, 1426881987,
   1925078388, 2162078206, 2614888103, 3248222580, 3835390401, 4022224774,
   264347078, 604807628, 770255983, 1249150122, 1555081692, 1996064986,
   2554220882, 2821834349, 2952996808, 3210313671, 3336571891, 3584528711,
   113926993, 338241895, 666307205, 773529912, 1294757372, 1396182291,
   1695183700, 1986661051, 2177026350, 2456956037, 2730485921, 2820302411,
   3259730800, 3345764771, 3516065817, 3600352804, 4094571909, 275423344,
   430227734, 506948616, 659060556, 883997877, 958139571, 1322822218,
   1537002063, 1747873779, 1955562222, 2024104815, 2227730452, 2361852424,
   2428436474, 2756734187, 3204031479, 3329325298]

/-- `Ch(x,y,z)`. -/
def shaCh (x y z : Nat) : Nat := (x &&& y) ^^^ (not32 x &&& z)

/-- `Maj(x,y,z)`. -/
def shaMaj (x y z : Nat) : Nat := (x &&& y) ^^^ (x &&& z) ^^^ (y &&& z)

/-- Big sigma 0. -/
def bsig0 (x : Nat) : Nat := rotr32 x 2 ^^^ rotr32 x 13 ^^^ rotr32 x 22

/-- Big sigma 1. -/
def bsig1 (x : Nat) : Nat := rotr32 x 6 ^^^ rotr32 x 11 ^^^ rotr32 x 25

/-- Small sigma 0. -/
def ssig0 (x : Nat) : Nat := rotr32 x 7 ^^^ rotr32 x 18 ^^^ (x >>> 3)

/-- Small sigma 1. -/
def ssig1 (x : Nat) : Nat := rotr32 x 17 ^^^ rotr32 x 19 ^^^ (x >>> 10)

/-- SHA-256 padding: `0x80`, zeros, then the 64-bit big-endian bit length,
to a multiple of 64 bytes. -/
def sha256Pad (msg : List Nat) : List Nat :=
  let len := msg.length
  let zeros := (64 + 56 - ((len + 1) % 64)) % 64
  let bitLen := len * 8
  msg ++ [0x80] ++ List.replicate zeros 0 ++
    [(bitLen >>> 56) % 256, (bitLen >>> 48) % 256, (bitLen >>> 40) % 256,
     (bitLen >>> 32) % 256, (bitLen >>> 24) % 256, (bitLen >>> 16) % 256,
     (bitLen >>> 8) % 256, bitLen % 256]

/-- Split a byte list into 64-byte blocks (fuel-structured recursion so the
definition reduces inside the kernel). -/
def chunks64Fuel : Nat → List Nat → List (List Nat)
  | 0, _ => []
  | _, [] => []
  | fuel + 1, a :: l => (a :: l).take 64 :: chunks64Fuel fuel ((a :: l).drop 64)

/-- Split a byte list into 64-byte blocks. -/
def chunks64 (l : List Nat) : List (List Nat) := chunks64Fuel l.length l

/-- Big-endian 32-bit words of one 64-byte block. -/
def blockWords : List Nat → List Nat
  | b0 :: b1 :: b2 :: b3 :: rest =>
      ((b0 <<< 24) ||| (b1 <<< 16) ||| (b2 <<< 8) ||| b3) :: blockWords rest
  | _ => []

/-- Extend the 16-word schedule to 64 words. -/
def extendSchedule : Nat → Array Nat → Array Nat
  | 0, w => w
  | n + 1, w =>
      let s := w.size
      let next := add32 (add32 (ssig1 (w.getD (s - 2) 0)) (w.getD (s - 7) 0))
                        (add32 (ssig0 (w.getD (s - 15) 0)) (w.getD (s - 16) 0))
      extendSchedule n (w.push next)

/-- One round of the SHA-256 compression loop. -/
def shaRound (st : List Nat) (kw : Nat × Nat) : List Nat :=
  match st with
  | [a, b, c, d, e, f, g, h] =>
      let t1 := add32 (add32 (add32 h (bsig1 e)) (add32 (shaCh e f g) kw.1)) kw.2
      let t2 := add32 (bsig0 a) (shaMaj a b c)
      [add32 t1 t2, a, b, c, add32 d t1, e, f, g]
  | other => other

/-- Compress one 64-byte block into the running state. -/
def sha256Block (st : List Nat) (block : List Nat) : List Nat :=
  let w := extendSchedule 48 (Array.mk (blockWords block))
  let final := (sha256K.zip w.toList).foldl shaRound st
  (st.zip final).map fun p => add32 p.1 p.2

/-- SHA-256 digest bytes of a byte list. -/
def sha256 (msg : List Nat) : List Nat :=
  let st := (chunks64 (sha256Pad msg)).foldl sha256Block sha256IV
  st.flatMap fun word =>
    [(word >>> 24) % 256, (word >>> 16) % 256, (word >>> 8) % 256, word % 256]

/-- Lowercase-hex SHA-256 of a string's UTF-8 bytes. -/
def sha256HexOfString (s : String) : String := hexOfBytes (sha256 (utf8Bytes s))

theorem sha256_vector_abc :
    sha256HexOfString "abc" =
      "ba7816bf8f01cfea414140de5dae2223b00361a396177a9cb410ff61f20015ad" := by
  rfl

theorem sha256_vector_empty :
    sha256HexOfString "" =
      "e3b0c44298fc1c149afbf4c8996fb92427ae41e4649b934ca495991b7852b855" := by
  rfl

/-! ## HMAC-SHA256 (model of Node `crypto.createHmac('sha256', secret)`) -/

/-- Key preparation: hash keys longer than the 64-byte block, then
zero-pad to 64 bytes. -/
def hmacKey0 (key : List Nat) : List Nat :=
  let k := if key.length > 64 then sha256 key else key
  k ++ List.replicate (64 - k.length) 0

/-- HMAC-SHA256 digest bytes of `msg` under `key` (FIPS 198-1). -/
def hmacSha256 (key msg : List Nat) : List Nat :=
  let k0 := hmacKey0 key
  sha256 ((k0.map (· ^^^ 0x5c)) ++ sha256 ((k0.map (· ^^^ 0x36)) ++ msg))

/-- Lowercase-hex HMAC-SHA256 of UTF-8 strings, as produced by
`createHmac('sha256', secret).update(msg).digest('hex')`. -/
def hmacHex (secret msg : String) : String :=
  hexOfBytes (hmacSha256 (utf8Bytes secret) (utf8Bytes msg))

theorem hmac_vector :
    hmacHex "mock-secret" "n1|abc" =
      "c5a8ca70a47d95c0498a2e0d695caebc19a4138f687ee6662b0c17ef4b20b665" := by
  rfl

/-! ## ASCII upper-casing (model of `String.prototype.toUpperCase` on the
ASCII method names used by HTTP). -/

/-- Upper-case one ASCII character. -/
def upperChar (c : Char) : Char :=
  if 'a' ≤ c ∧ c ≤ 'z' then Char.ofNat (c.toNat - 32) else c

/-- Upper-case a string, ASCII-only model of `toUpperCase()`. -/
def toUpperAscii (s : String) : String := ⟨s.data.map upperChar⟩

/-! ## Percent decoding / encoding

`parseQuery` models `new URLSearchParams(raw)` (WHATWG
`application/x-www-form-urlencoded` parsing): split on `&`, drop empty
segments, split each segment at the first `=`, decode `+` as space and
`%XY` as a byte, then interpret the bytes as UTF-8.
`encodeURIComponent` models the ECMAScript built-in: every character
outside `A-Z a-z 0-9 - _ . ! ~ * ' ( )` is written as the `%XY`
uppercase-hex encoding of its UTF-8 bytes (so a space becomes `%20`). -/

/-- Value of one hex digit, upper or lower case. -/
def hexVal (c : Char) : Option Nat :=
  if '0' ≤ c ∧ c ≤ '9' then some (c.toNat - 48)
  else if 'a' ≤ c ∧ c ≤ 'f' then some (c.toNat - 87)
  else if 'A' ≤ c ∧ c ≤ 'F' then some (c.toNat - 55)
  else none

/-- Percent/plus-decode a form-urlencoded component to bytes. An invalid
`%` escape is kept literally, as WHATWG prescribes. -/
def percentDecodeBytes : List Char → List Nat
  | [] => []
  | '+' :: cs => 0x20 :: percentDecodeBytes cs
  | '%' :: h1 :: h2 :: cs =>
      match hexVal h1, hexVal h2 with
      | some a, some b => (a * 16 + b) :: percentDecodeBytes cs
      | _, _ => utf8Char '%' ++ percentDecodeBytes (h1 :: h2 :: cs)
  | c :: cs => utf8Char c ++ percentDecodeBytes cs

/-- UTF-8 decoding with U+FFFD replacement on errors (fuel-structured). -/
def utf8DecodeFuel : Nat → List Nat → List Char
  | 0, _ => []
  | _, [] => []
  | fuel + 1, b :: rest =>
      if b < 0x80 then Char.ofNat b :: utf8DecodeFuel fuel rest
      else if 0xC2 ≤ b ∧ b ≤ 0xDF then
        match rest with
        | b2 :: r2 =>
            if 0x80 ≤ b2 ∧ b2 < 0xC0 then
              Char.ofNat (((b - 0xC0) <<< 6) ||| (b2 &&& 0x3F)) :: utf8DecodeFuel fuel r2
            else '�' :: utf8DecodeFuel fuel rest
        | [] => ['�']
      else if 0xE0 ≤ b ∧ b ≤ 0xEF then
        match rest with
        | b2 :: b3 :: r3 =>
            if (0x80 ≤ b2 ∧ b2 < 0xC0) ∧ (0x80 ≤ b3 ∧ b3 < 0xC0) then
              let cp := ((b - 0xE0) <<< 12) ||| ((b2 &&& 0x3F) <<< 6) ||| (b3 &&& 0x3F)
              (if 0xD800 ≤ cp ∧ cp < 0xE000 then '�' else Char.ofNat cp) ::
                utf8DecodeFuel fuel r3
            else '�' :: utf8DecodeFuel fuel rest
        | _ => '�' :: utf8DecodeFuel fuel rest.tail
      else if 0xF0 ≤ b ∧ b ≤ 0xF4 then
        match rest with
        | b2 :: b3 :: b4 :: r4 =>
            if (0x80 ≤ b2 ∧ b2 < 0xC0) ∧ (0x80 ≤ b3 ∧ b3 < 0xC0) ∧ (0x80 ≤ b4 ∧ b4 < 0xC0) then
              let cp := ((b - 0xF0) <<< 18) ||| ((b2 &&& 0x3F) <<< 12) |||
                        ((b3 &&& 0x3F) <<< 6) ||| (b4 &&& 0x3F)
              (if cp > 0x10FFFF then '�' else Char.ofNat cp) :: utf8DecodeFuel fuel r4
            else '�' :: utf8DecodeFuel fuel rest
        | _ => '�' :: utf8DecodeFuel fuel rest.tail
      else '�' :: utf8DecodeFuel fuel rest

/-- UTF-8 decode a byte list to a string. -/
def utf8Decode (bs : List Nat) : String := ⟨utf8DecodeFuel bs.length bs⟩

/-- Decode one form-urlencoded component to a string. -/
def decodeComponent (cs : List Char) : String :=
  utf8Decode (percentDecodeBytes cs)

/-- Split a character list on a separator character. -/
def splitOnChar (sep : Char) : List Char → List (List Char)
  | [] => [[]]
  | c :: cs =>
      if c = sep then [] :: splitOnChar sep cs
      else match splitOnChar sep cs with
        | seg :: rest => (c :: seg) :: rest
        | [] => [[c]]

/-- Parse a raw query string into ordered (key, value) pairs, modelling
`new URLSearchParams(rawQuery).entries()`. -/
def parseQuery (rawQuery : String) : List (String × String) :=
  (splitOnChar '&' rawQuery.data).filterMap fun seg =>
    match seg with
    | [] => none
    | _ =>
      let key := seg.takeWhile (· ≠ '=')
      let rest := seg.dropWhile (· ≠ '=')
      let val := match rest with | [] => [] | _ :: tl => tl
      some (decodeComponent key, decodeComponent val)

/-- Is `c` in `encodeURIComponent`'s unreserved set? -/
def uriUnreserved (c : Char) : Bool :=
  ('A' ≤ c ∧ c ≤ 'Z') ∨ ('a' ≤ c ∧ c ≤ 'z') ∨ ('0' ≤ c ∧ c ≤ '9') ∨
    c = '-' ∨ c = '_' ∨ c = '.' ∨ c = '!' ∨ c = '~' ∨ c = '*' ∨
    c = '\'' ∨ c = '(' ∨ c = ')'

/-- Uppercase hex digit for a value below 16. -/
def hexDigitUpper (n : Nat) : Char :=
  if n < 10 then Char.ofNat (48 + n) else Char.ofNat (55 + n)

/-- Model of `encodeURIComponent`. -/
def encodeURIComponent (s : String) : String :=
  ⟨s.data.flatMap fun c =>
    if uriUnreserved c then [c]
    else (utf8Char c).flatMap fun b => ['%', hexDigitUpper (b / 16), hexDigitUpper (b % 16)]⟩

/-! ## localeCompare and the stable key sort

`hash.ts` sorts query pairs with `a.localeCompare(b)`, the ICU
root-locale collation. For the ASCII strings this system handles, root
collation compares primary weights first — punctuation below digits
below letters, letters case-insensitively by base letter — and breaks
primary ties by case, lowercase before uppercase. This differs from
code-point order: `"a".localeCompare("B") < 0` although `'B' < 'a'` by
code point. -/

/-- Primary collation weight of an ASCII character (root locale model):
punctuation keeps its code point (below `0x100`), digits map to
`0x100 + value`, letters map case-insensitively to `0x200 + letter`. -/
def primaryWeight (c : Char) : Nat :=
  if '0' ≤ c ∧ c ≤ '9' then 0x100 + (c.toNat - 48)
  else if 'a' ≤ c ∧ c ≤ 'z' then 0x200 + (c.toNat - 97)
  else if 'A' ≤ c ∧ c ≤ 'Z' then 0x200 + (c.toNat - 65)
  else c.toNat

/-- Tertiary (case) weight: lowercase before uppercase. -/
def tertiaryWeight (c : Char) : Nat :=
  if 'A' ≤ c ∧ c ≤ 'Z' then 1 else 0

/-- Lexicographic comparison of weight lists, as `-1 / 0 / 1`. -/
def lexCmp : List Nat → List Nat → Int
  | [], [] => 0
  | [], _ :: _ => -1
  | _ :: _, [] => 1
  | a :: as_, b :: bs =>
      if a < b then -1 else if b < a then 1 else lexCmp as_ bs

/-- Model of `a.localeCompare(b)` on ASCII strings: primary weights
first, then the case tiebreak. -/
def localeCompare (a b : String) : Int :=
  let p := lexCmp (a.data.map primaryWeight) (b.data.map primaryWeight)
  if p ≠ 0 then p else lexCmp (a.data.map tertiaryWeight) (b.data.map tertiaryWeight)

/-- Stable insertion of `x` into a list sorted by `cmp`: `x` goes after
every element that does not compare strictly greater. -/
def insertPair (cmp : String → String → Int) (x : String × String) :
    List (String × String) → List (String × String)
  | [] => [x]
  | y :: ys => if cmp y.1 x.1 ≤ 0 then y :: insertPair cmp x ys else x :: y :: ys

/-- Stable sort by key, modelling `pairs.sort(([a],[b]) => a.localeCompare(b))`
(ECMAScript `Array.prototype.sort` is stable, and the comparator is a
consistent total preorder, so the stable sorted permutation is unique). -/
def sortPairs (cmp : String → String → Int) (l : List (String × String)) :
    List (String × String) :=
  l.foldl (fun acc x => insertPair cmp x acc) []

/-! ## canonicalQueryString and computeRequestHash (from `hash.ts`) -/

/-- `canonicalQueryString` from `hash.ts`: parse, sort by
`localeCompare` on keys, re-encode with `encodeURIComponent`,
join with `&`; empty input yields the empty string. -/
def canonicalQueryString (rawQuery : String) : String :=
  if rawQuery = "" then ""
  else
    let pairs := parseQuery rawQuery
    let sorted := sortPairs localeCompare pairs
    String.intercalate "&"
      (sorted.map fun p => encodeURIComponent p.1 ++ "=" ++ encodeURIComponent p.2)

/-- `computeRequestHash` from `hash.ts`: lowercase-hex SHA-256 of
`METHOD \n PATH \n CANONICAL_QUERY \n` followed by the raw body bytes. -/
def computeRequestHash (method pathname rawQuery : String) (rawBody : List Nat) : String :=
  hexOfBytes (sha256 (utf8Bytes
    (toUpperAscii method ++ "\n" ++ pathname ++ "\n" ++ canonicalQueryString rawQuery ++ "\n")
    ++ rawBody))

theorem canonical_query_example :
    canonicalQueryString "z=last&a=first&m=middle" = "a=first&m=middle&z=last" := by
  rfl

theorem request_hash_example :
    computeRequestHash "GET" "/weather" "city=London" [] =
      "b9d7ead883bd3beebb1123aebdd9d7dc2a0c4493446851858b60778bb859cb61" := by
  rfl

/-! ## base64url (model of Node `Buffer`'s `base64url` encoding)

Unpadded base64url as produced by `buf.toString('base64url')`. The
decoder models `Buffer.from(s, 'base64url')` on well-formed input and
refuses strings outside the alphabet (Node itself is lenient there; no
claim below depends on decoding a malformed base64url string to bytes).
Bit manipulation is expressed with `/ % *` on `Nat`. -/

/-- The base64url alphabet character for an index below 64. -/
def b64Char (n : Nat) : Char :=
  if n < 26 then Char.ofNat (65 + n)
  else if n < 52 then Char.ofNat (97 + (n - 26))
  else if n < 62 then Char.ofNat (48 + (n - 52))
  else if n = 62 then '-'
  else '_'

/-- Index of a base64url alphabet character. -/
def b64Index (c : Char) : Option Nat :=
  if 'A' ≤ c ∧ c ≤ 'Z' then some (c.toNat - 65)
  else if 'a' ≤ c ∧ c ≤ 'z' then some (c.toNat - 71)
  else if '0' ≤ c ∧ c ≤ '9' then some (c.toNat + 4)
  else if c = '-' then some 62
  else if c = '_' then some 63
  else none

/-- base64url-encode a byte list (no padding). -/
def base64urlEncodeChars : List Nat → List Char
  | [] => []
  | [b1] => [b64Char (b1 / 4), b64Char (b1 % 4 * 16)]
  | [b1, b2] => [b64Char (b1 / 4), b64Char (b1 % 4 * 16 + b2 / 16), b64Char (b2 % 16 * 4)]
  | b1 :: b2 :: b3 :: rest =>
      b64Char (b1 / 4) :: b64Char (b1 % 4 * 16 + b2 / 16) ::
      b64Char (b2 % 16 * 4 + b3 / 64) :: b64Char (b3 % 64) ::
      base64urlEncodeChars rest

/-- base64url-encode bytes to a string. -/
def base64urlEncode (bs : List Nat) : String := ⟨base64urlEncodeChars bs⟩

/-- base64url-decode characters to bytes. -/
def base64urlDecodeChars : List Char → Option (List Nat)
  | [] => some []
  | [_] => some []
  | [c1, c2] => do
      let i1 ← b64Index c1
      let i2 ← b64Index c2
      some [i1 * 4 + i2 / 16]
  | [c1, c2, c3] => do
      let i1 ← b64Index c1
      let i2 ← b64Index c2
      let i3 ← b64Index c3
      some [i1 * 4 + i2 / 16, i2 % 16 * 16 + i3 / 4]
  | c1 :: c2 :: c3 :: c4 :: rest => do
      let i1 ← b64Index c1
      let i2 ← b64Index c2
      let i3 ← b64Index c3
      let i4 ← b64Index c4
      let tl ← base64urlDecodeChars rest
      some ((i1 * 4 + i2 / 16) :: (i2 % 16 * 16 + i3 / 4) :: (i3 % 4 * 64 + i4) :: tl)

/-- base64url-decode a string to bytes. -/
def base64urlDecode (s : String) : Option (List Nat) := base64urlDecodeChars s.data

/-- The alphabet map and its inverse cancel on indices below 64. -/
theorem b64Index_b64Char : ∀ i < 64, b64Index (b64Char i) = some i := by decide

/-- Decoding inverts encoding on lists of genuine bytes (strong induction
on a length bound). -/
theorem base64url_roundtrip_aux :
    ∀ (n : Nat) (bs : List Nat), bs.length ≤ n → (∀ b ∈ bs, b < 256) →
      base64urlDecodeChars (base64urlEncodeChars bs) = some bs := by
  intro n
  induction n with
  | zero =>
      intro bs hlen _
      rcases bs with _ | ⟨b, tl⟩
      · rfl
      · simp at hlen
  | succ n ih =>
      intro bs hlen h
      rcases bs with _ | ⟨b1, _ | ⟨b2, _ | ⟨b3, rest⟩⟩⟩
      · rfl
      · have hb1 : b1 < 256 := h b1 (by simp)
        have d1 : b1 / 4 < 64 := by omega
        have d2 : b1 % 4 * 16 < 64 := by omega
        have e1 := b64Index_b64Char _ d1
        have e2 := b64Index_b64Char _ d2
        simp only [base64urlEncodeChars, base64urlDecodeChars, e1, e2,
          Option.bind_eq_bind, Option.some_bind, Option.some.injEq, List.cons.injEq, and_true]
        omega
      · have hb1 : b1 < 256 := h b1 (by simp)
        have hb2 : b2 < 256 := h b2 (by simp)
        have d1 : b1 / 4 < 64 := by omega
        have d2 : b1 % 4 * 16 + b2 / 16 < 64 := by omega
        have d3 : b2 % 16 * 4 < 64 := by omega
        have e1 := b64Index_b64Char _ d1
        have e2 := b64Index_b64Char _ d2
        have e3 := b64Index_b64Char _ d3
        simp only [base64urlEncodeChars, base64urlDecodeChars, e1, e2, e3,
          Option.bind_eq_bind, Option.some_bind, Option.some.injEq, List.cons.injEq, and_true]
        constructor <;> omega
      · have hb1 : b1 < 256 := h b1 (by simp)
        have hb2 : b2 < 256 := h b2 (by simp)
        have hb3 : b3 < 256 := h b3 (by simp)
        have hlen' : rest.length ≤ n := by simp at hlen; omega
        have ihr := ih rest hlen' (fun b hb => h b (by simp [hb]))
        have d1 : b1 / 4 < 64 := by omega
        have d2 : b1 % 4 * 16 + b2 / 16 < 64 := by omega
        have d3 : b2 % 16 * 4 + b3 / 64 < 64 := by omega
        have d4 : b3 % 64 < 64 := by omega
        have e1 := b64Index_b64Char _ d1
        have e2 := b64Index_b64Char _ d2
        have e3 := b64Index_b64Char _ d3
        have e4 := b64Index_b64Char _ d4
        simp only [base64urlEncodeChars, base64urlDecodeChars, e1, e2, e3, e4, ihr,
          Option.bind_eq_bind, Option.some_bind, Option.some.injEq, List.cons.injEq, and_true]
        refine ⟨by omega, by omega, by omega⟩

/-- Decoding inverts encoding on lists of genuine bytes. -/
theorem base64url_roundtrip (bs : List Nat) (h : ∀ b ∈ bs, b < 256) :
    base64urlDecodeChars (base64urlEncodeChars bs) = some bs :=
  base64url_roundtrip_aux bs.length bs le_rfl h

/-! ## JSON (model of `JSON.parse` / the object literals the code builds)

JSON values as a tree; the parser models `JSON.parse` restricted to
integer numbers (the protocol's only number field is the integer
`version`; a fraction or exponent makes the model parser fail where the
built-in would produce a float) and to `\uXXXX` escapes that denote
Unicode scalar values (a lone surrogate escape decodes to U+FFFD). -/

/-- JSON values. -/
inductive Json where
  | null
  | bool (b : Bool)
  | num (n : Int)
  | str (s : String)
  | arr (elems : List Json)
  | obj (members : List (String × Json))

/-- `SameValueZero`, the equality JS `Map` keys use, on decoded JSON
values: structural on primitives; arrays and objects compare by identity,
and a freshly parsed value is never identical to a previously stored key,
so they never match. -/
def jsSameValueZero (a b : Json) : Bool :=
  match a, b with
  | .null, .null => true
  | .bool x, .bool y => x = y
  | .num x, .num y => x = y
  | .str x, .str y => x = y
  | _, _ => false

/-- Last-occurrence member lookup: `JSON.parse` keeps the last duplicate
key, and property access reads that value. -/
def jsonLookup (ms : List (String × Json)) (k : String) : Option Json :=
  ms.foldl (fun acc m => if m.1 = k then some m.2 else acc) none

/-- Property access `j[k]` on a decoded value: `some` for an object that
has the member, `none` when the member is absent or the value is not an
object (JS yields `undefined` in both cases; `null` property access
throws and is handled where it matters). -/
def jsGet (j : Json) (k : String) : Option Json :=
  match j with
  | .obj ms => jsonLookup ms k
  | _ => none

/-! ### JSON parser -/

/-- JSON whitespace. -/
def skipWs : List Char → List Char
  | c :: cs => if c = ' ' ∨ c = '\t' ∨ c = '\n' ∨ c = '\r' then skipWs cs else c :: cs
  | [] => []

/-- Digit test. -/
def isDigitChar (c : Char) : Bool := '0' ≤ c ∧ c ≤ '9'

/-- Split leading decimal digits off a character list. -/
def digitsSpan : List Char → List Nat × List Char
  | [] => ([], [])
  | c :: cs =>
      if isDigitChar c then
        let p := digitsSpan cs
        ((c.toNat - 48) :: p.1, p.2)
      else ([], c :: cs)

/-- Does the list start with a fraction or exponent marker? -/
def fracExpLead : List Char → Bool
  | c :: _ => c = '.' ∨ c = 'e' ∨ c = 'E'
  | [] => false

/-- Numeric value of a digit list. -/
def digitsVal (ds : List Nat) : Nat := ds.foldl (fun a d => a * 10 + d) 0

/-- Parse a JSON non-negative integer literal: digits without a leading
zero, not followed by a fraction or exponent. -/
def parseNumber (cs : List Char) : Option (Nat × List Char) :=
  let p := digitsSpan cs
  if p.1 = [] then none
  else if p.1.length > 1 ∧ p.1.headI = 0 then none
  else if fracExpLead p.2 then none
  else some (digitsVal p.1, p.2)

/-- Simple escapes after a backslash. -/
def escChar (c : Char) : Option Char :=
  if c = '"' then some '"'
  else if c = '\\' then some '\\'
  else if c = '/' then some '/'
  else if c = 'b' then some (Char.ofNat 8)
  else if c = 'f' then some (Char.ofNat 12)
  else if c = 'n' then some '\n'
  else if c = 'r' then some (Char.ofNat 13)
  else if c = 't' then some '\t'
  else none

/-- Parse the body of a JSON string after the opening quote, up to and
including the closing quote. -/
def parseStringChars : Nat → List Char → Option (List Char × List Char)
  | _, [] => none
  | fuel, c :: rest =>
      if c = '"' then some ([], rest)
      else
        match fuel with
        | 0 => none
        | fuel + 1 =>
          if c = '\\' then
            match rest with
            | 'u' :: h1 :: h2 :: h3 :: h4 :: r =>
                (match hexVal h1, hexVal h2, hexVal h3, hexVal h4 with
                 | some a, some b, some cc, some d =>
                     let cp := ((a * 16 + b) * 16 + cc) * 16 + d
                     let ch := if 0xD800 ≤ cp ∧ cp < 0xE000 then '�' else Char.ofNat cp
                     (parseStringChars fuel r).map fun p => (ch :: p.1, p.2)
                 | _, _, _, _ => none)
            | e :: r =>
                (match escChar e with
                 | some ec => (parseStringChars fuel r).map fun p => (ec :: p.1, p.2)
                 | none => none)
            | [] => none
          else if c.toNat < 32 then none
          else (parseStringChars fuel rest).map fun p => (c :: p.1, p.2)

mutual

/-- Parse one JSON value (fuel bounds nesting); dispatch is on the first
non-whitespace character. -/
def parseValue : Nat → List Char → Option (Json × List Char)
  | 0, _ => none
  | fuel + 1, cs =>
    match skipWs cs with
    | [] => none
    | c :: r =>
      if c = '"' then (parseStringChars r.length r).map fun p => ((.str ⟨p.1⟩ : Json), p.2)
      else if c = '[' then
        (match skipWs r with
         | ']' :: r2 => some (.arr [], r2)
         | r2 => (parseElems fuel r2).map fun p => (.arr p.1, p.2))
      else if c = '{' then
        (match skipWs r with
         | '}' :: r2 => some (.obj [], r2)
         | r2 => (parseMembers fuel r2).map fun p => (.obj p.1, p.2))
      else if c = '-' then (parseNumber r).map fun p => (.num (-(p.1 : Int)), p.2)
      else if isDigitChar c then (parseNumber (c :: r)).map fun p => ((.num p.1 : Json), p.2)
      else if c = 'n' then
        (match r with | 'u' :: 'l' :: 'l' :: r2 => some (.null, r2) | _ => none)
      else if c = 't' then
        (match r with | 'r' :: 'u' :: 'e' :: r2 => some (.bool true, r2) | _ => none)
      else if c = 'f' then
        (match r with | 'a' :: 'l' :: 's' :: 'e' :: r2 => some (.bool false, r2) | _ => none)
      else none

/-- Parse the elements of a non-empty array, consuming the closing `]`. -/
def parseElems : Nat → List Char → Option (List Json × List Char)
  | 0, _ => none
  | fuel + 1, cs => do
      let (v, r) ← parseValue fuel cs
      match skipWs r with
      | ',' :: r2 => (parseElems fuel r2).map fun p => (v :: p.1, p.2)
      | ']' :: r2 => some ([v], r2)
      | _ => none

/-- Parse the members of a non-empty object, consuming the closing `}`. -/
def parseMembers : Nat → List Char → Option (List (String × Json) × List Char)
  | 0, _ => none
  | fuel + 1, cs =>
      match skipWs cs with
      | '"' :: r => do
          let (k, r1) ← parseStringChars r.length r
          match skipWs r1 with
          | ':' :: r2 => do
              let (v, r3) ← parseValue fuel r2
              (match skipWs r3 with
               | ',' :: r4 => (parseMembers fuel r4).map fun p => ((⟨k⟩, v) :: p.1, p.2)
               | '}' :: r4 => some ([(⟨k⟩, v)], r4)
               | _ => none)
          | _ => none
      | _ => none

end

/-- Model of `JSON.parse`: parse one value, then require only whitespace
to remain. -/
def jsonParse (s : String) : Option Json :=
  match parseValue (s.data.length + 1) s.data with
  | some (v, r) => if skipWs r = [] then some v else none
  | none => none

theorem jsonParse_example :
    jsonParse "\x7b\"a\":1,\"b\":\"x\",\"c\":[true,null]\x7d" =
      some (.obj [("a", .num 1), ("b", .str "x"), ("c", .arr [.bool true, .null])]) := by
  rfl

theorem jsonParse_rejects_bare :
    jsonParse "nonsense" = none := by rfl

/-! ## Decimal digit rendering (model of JS integer-to-string) -/

/-- Digit character for a value below 10. -/
def digitChar (d : Nat) : Char := Char.ofNat (48 + d)

/-- Decimal digit list of a natural number, most significant first
(fuel-structured; `fuel ≥ n` suffices). -/
def natDigitList : Nat → Nat → List Nat
  | 0, _ => []
  | fuel + 1, n => if n < 10 then [n] else natDigitList fuel (n / 10) ++ [n % 10]

/-- Decimal character rendering of a natural number. -/
def natDigits (n : Nat) : List Char := (natDigitList (n + 1) n).map digitChar

/-- Decimal character rendering of an integer (JS `${n}` for integers). -/
def intDigits (n : Int) : List Char :=
  if n < 0 then '-' :: natDigits (-n).toNat else natDigits n.toNat

/-! ## Dates (model of `Date.parse`, `new Date().toISOString()`)

The model covers the ISO-8601 UTC profile this system emits:
`YYYY-MM-DDTHH:MM:SS(.fff)?Z`. Any other string is treated as an
invalid date (the JS parser accepts more formats; nothing in the
verified repository produces them). Epoch arithmetic follows the
standard civil-calendar conversion. -/

/-- Days from 1970-01-01 for a civil date (proleptic Gregorian). -/
def daysFromCivil (y : Int) (m d : Nat) : Int :=
  let y' := if m ≤ 2 then y - 1 else y
  let era := (if 0 ≤ y' then y' else y' - 399) / 400
  let yoe := y' - era * 400
  let mp := (m + 9) % 12
  let doy := (153 * mp + 2) / 5 + (d : Int) - 1
  let doe := yoe * 365 + yoe / 4 - yoe / 100 + doy
  era * 146097 + doe - 719468

/-- Civil date (year, month, day) of a day count from 1970-01-01. -/
def civilFromDays (z : Int) : Int × Nat × Nat :=
  let z' := z + 719468
  let era := (if 0 ≤ z' then z' else z' - 146096) / 146097
  let doe := z' - era * 146097
  let yoe := (doe - doe / 1460 + doe / 36524 - doe / 146096) / 365
  let y := yoe + era * 400
  let doy := doe - (365 * yoe + yoe / 4 - yoe / 100)
  let mp := (5 * doy + 2) / 153
  let d := (doy - (153 * mp + 2) / 5 + 1).toNat
  let m := (if mp < 10 then mp + 3 else mp - 9).toNat
  (if m ≤ 2 then y + 1 else y, m, d)

/-- Days in a month of a (proleptic Gregorian) year. -/
def daysInMonth (y : Int) (m : Nat) : Nat :=
  if m = 2 then
    if y % 4 = 0 ∧ (y % 100 ≠ 0 ∨ y % 400 = 0) then 29 else 28
  else if m = 4 ∨ m = 6 ∨ m = 9 ∨ m = 11 then 30
  else 31

/-- Read exactly `n` decimal digits. -/
def takeDigits : Nat → List Char → Option (Nat × List Char)
  | 0, cs => some (0, cs)
  | n + 1, c :: cs =>
      if isDigitChar c then
        (takeDigits n cs).map fun p => (p.1 + (c.toNat - 48) * 10 ^ n, p.2)
      else none
  | _ + 1, [] => none

/-- Parse `YYYY-MM-DDTHH:MM:SS(.fff)?Z` to epoch milliseconds. -/
def parseDateISO (s : String) : Option Int := do
  let (y, r1) ← takeDigits 4 s.data
  let r2 ← match r1 with | '-' :: t => some t | _ => none
  let (mo, r3) ← takeDigits 2 r2
  let r4 ← match r3 with | '-' :: t => some t | _ => none
  let (d, r5) ← takeDigits 2 r4
  let r6 ← match r5 with | 'T' :: t => some t | _ => none
  let (h, r7) ← takeDigits 2 r6
  let r8 ← match r7 with | ':' :: t => some t | _ => none
  let (mi, r9) ← takeDigits 2 r8
  let r10 ← match r9 with | ':' :: t => some t | _ => none
  let (sec, r11) ← takeDigits 2 r10
  let (frac, r12) ←
    match r11 with
    | '.' :: t => takeDigits 3 t
    | t => some (0, t)
  let _ ← match r12 with | ['Z'] => some () | _ => none
  if 1 ≤ mo ∧ mo ≤ 12 ∧ 1 ≤ d ∧ d ≤ daysInMonth y mo ∧ h ≤ 23 ∧ mi ≤ 59 ∧ sec ≤ 59 then
    some ((daysFromCivil y mo d * 86400 + h * 3600 + mi * 60 + sec) * 1000 + frac)
  else none

/-- Left-pad a digit rendering with zeros to a fixed width. -/
def padDigits (w n : Nat) : List Char :=
  let ds := natDigits n
  List.replicate (w - ds.length) '0' ++ ds

/-- Render epoch milliseconds as `YYYY-MM-DDTHH:MM:SS.fffZ`
(`Date.prototype.toISOString`). -/
def isoOfMs (t : Int) : String :=
  let tSec := t.fdiv 1000
  let msOfSec := (t.emod 1000).toNat
  let day := tSec.fdiv 86400
  let secOfDay := (tSec.emod 86400).toNat
  let ymd := civilFromDays day
  ⟨padDigits 4 ymd.1.toNat ++ '-' :: padDigits 2 ymd.2.1 ++ '-' :: padDigits 2 ymd.2.2 ++
   'T' :: padDigits 2 (secOfDay / 3600) ++ ':' :: padDigits 2 (secOfDay / 60 % 60) ++
   ':' :: padDigits 2 (secOfDay % 60) ++ '.' :: padDigits 3 msOfSec ++ ['Z']⟩

theorem iso_roundtrip_example :
    parseDateISO (isoOfMs 1760140800000) = some 1760140800000 ∧
      isoOfMs 1760140800000 = "2025-10-11T00:00:00.000Z" := by
  constructor <;> rfl

/-! ## JS string coercion of decoded JSON values (template literals) -/

/-- `${j}` for primitive values (nested arrays/objects inside an array
coerce to `""` / `[object Object]`; this models one nesting level of the
JS array join). -/
def jsPrimToString (j : Json) : String :=
  match j with
  | .null => "null"
  | .bool b => cond b "true" "false"
  | .num n => ⟨intDigits n⟩
  | .str s => s
  | .arr _ => ""
  | .obj _ => "[object Object]"

/-- `${v}` where `v` is an optional decoded JSON field (`undefined` when
absent). -/
def jsToString (v : Option Json) : String :=
  match v with
  | none => "undefined"
  | some (.arr xs) => String.intercalate "," (xs.map jsPrimToString)
  | some j => jsPrimToString j

/-! ## Protocol data (types.ts) -/

/-- An x402 challenge (the object inside the 402 body). -/
structure Challenge where
  version : Int
  scheme : String
  price : String
  asset : String
  network : String
  recipient : String
  nonce : String
  expiresAt : String
  requestHash : String
  description : Option String

/-- A payment proof as built by the payers. -/
structure PaymentProof where
  version : Int
  nonce : String
  requestHash : String
  payer : String
  timestamp : String
  expiresAt : String
  signature : String

/-- Per-route pricing configuration. -/
structure PricingConfig where
  price : String
  asset : String
  network : Option String
  recipient : String
  scheme : Option String
  description : Option String
  ttlSeconds : Option Int

/-! ## Proof-header encoding (fetch.ts `encodeProof`) and decoding

`JSON.stringify` on the payer's proof object emits the members in
insertion order: `version, nonce, requestHash, payer, timestamp,
expiresAt, signature` (both `MockPayer.pay` and `SolanaUSDCPayer.pay`
build the literal in that order). String fields are rendered unescaped;
the round-trip theorems assume the fields contain no character that
`JSON.stringify` would escape (every field this system produces is
printable ASCII without `"` or `\`). -/

/-- A character that is rendered into JSON literally and survives the
ASCII UTF-8 round-trip. -/
def jsonSafeChar (c : Char) : Bool :=
  32 ≤ c.toNat ∧ c.toNat < 127 ∧ c ≠ '"' ∧ c ≠ '\\'

/-- All characters of a string are JSON-safe. -/
def jsonSafe (s : String) : Bool := s.data.all jsonSafeChar

/-- One string-valued JSON member followed by a separator and the rest. -/
def strMember (k v : String) (sep : Char) (rest : List Char) : List Char :=
  '"' :: k.data ++ '"' :: ':' :: '"' :: v.data ++ '"' :: sep :: rest

/-- JSON rendering of the proof object (insertion order preserved). -/
def renderProofChars (p : PaymentProof) : List Char :=
  '{' :: ('"' :: "version".data ++ '"' :: ':' :: (intDigits p.version ++ ',' ::
    strMember "nonce" p.nonce ',' (
    strMember "requestHash" p.requestHash ',' (
    strMember "payer" p.payer ',' (
    strMember "timestamp" p.timestamp ',' (
    strMember "expiresAt" p.expiresAt ',' (
    strMember "signature" p.signature '}' [])))))))

/-- `JSON.stringify(proof)` as a string. -/
def renderProofJson (p : PaymentProof) : String := ⟨renderProofChars p⟩

/-- `encodeProof` from `fetch.ts`: base64url of the UTF-8 JSON bytes. -/
def encodeProof (p : PaymentProof) : String :=
  base64urlEncode (utf8Bytes (renderProofJson p))

/-- Decode an `X-Payment-Proof` header to a JSON value:
`Buffer.from(h, 'base64url').toString('utf8')` then `JSON.parse`,
`none` when parsing throws. -/
def headerJson (h : String) : Option Json :=
  (base64urlDecode h).bind fun bs => jsonParse (utf8Decode bs)

/-- The JSON value a well-formed proof decodes to. -/
def proofJson (p : PaymentProof) : Json :=
  .obj [("version", .num p.version), ("nonce", .str p.nonce),
        ("requestHash", .str p.requestHash), ("payer", .str p.payer),
        ("timestamp", .str p.timestamp), ("expiresAt", .str p.expiresAt),
        ("signature", .str p.signature)]

/-! ## MockPayer (mock/payer.ts) and MockVerifier (mock/verifier.ts) -/

/-- `new Date(x).getTime()` on a decoded JSON field (`none` = `NaN`;
absent fields coerce through `undefined`, `null` to epoch 0, booleans to
0/1; arrays and objects are modelled as invalid dates). -/
def dateValueOf (v : Option Json) : Option Int :=
  match v with
  | none => none
  | some (.str s) => parseDateISO s
  | some (.num n) => some n
  | some .null => some 0
  | some (.bool b) => some (cond b 1 0)
  | some (.arr _) => none
  | some (.obj _) => none

/-- `MockPayer.pay` with secret `secret` and configured payer address
(defaults in the source: `"mock-secret"`,
`"mock://0x0000000000000000000000000000000000000001"`): deterministic
HMAC signature over `` `${nonce}|${requestHash}` ``, other fields copied
from the challenge, `timestamp = now`. -/
def mockPay (secret payerAddress : String) (nowMs : Int) (c : Challenge) : PaymentProof :=
  { version := c.version
    nonce := c.nonce
    requestHash := c.requestHash
    payer := payerAddress
    timestamp := isoOfMs nowMs
    expiresAt := c.expiresAt
    signature := hmacHex secret (c.nonce ++ "|" ++ c.requestHash) }

/-- `MockVerifier.verify secret now proofHeader requestHash`: decode the
base64url JSON header (failure caught, `false`); require
`proof.requestHash` strictly equal to the server hash; require
`proof.expiresAt` to parse to a time strictly after `now`; compare
`proof.signature` against `HMAC-SHA256(secret, nonce|requestHash)` in
lowercase hex with a length check plus `timingSafeEqual` (equality of
the strings). `none` models an uncaught exception
(`Buffer.from` on a non-string, non-nullish signature field); the
`pricing` argument of the source is ignored by the implementation. -/
def mockVerify (secret : String) (nowMs : Int) (proofHeader requestHash : String) :
    Option Bool :=
  match headerJson proofHeader with
  | none => some false
  | some j =>
    match jsGet j "requestHash" with
    | some (.str rh) =>
      if rh ≠ requestHash then some false
      else
        match dateValueOf (jsGet j "expiresAt") with
        | none => some false
        | some exp =>
          if exp ≤ nowMs then some false
          else
            let expected := hmacHex secret
              (jsToString (jsGet j "nonce") ++ "|" ++ jsToString (jsGet j "requestHash"))
            match jsGet j "signature" with
            | some (.str sig) => some (sig == expected)
            | none => some false
            | some .null => some false
            | some _ => none
    | _ => some false

/-! ## Round-trip lemmas: decoding inverts the proof-header encoding -/

/-- A leading decimal digit? -/
def digitLead : List Char → Bool
  | c :: _ => isDigitChar c
  | [] => false

/-- `String.mk` of a string's characters is the string. -/
theorem string_eta (s : String) : (⟨s.data⟩ : String) = s := by
  cases s
  rfl

/-- Character-level facts about decimal digit characters. -/
theorem digitChar_facts :
    ∀ d < 10, isDigitChar (digitChar d) = true ∧ (digitChar d).toNat - 48 = d ∧
      digitChar d ≠ '"' ∧ digitChar d ≠ '[' ∧ digitChar d ≠ '{' ∧ digitChar d ≠ '-' ∧
      ¬(digitChar d = ' ' ∨ digitChar d = '\t' ∨ digitChar d = '\n' ∨ digitChar d = '\r') ∧
      (digitChar d).toNat < 128 := by
  decide

/-- Every digit produced by `natDigitList` is below 10. -/
theorem natDigitList_lt_ten : ∀ fuel n, ∀ d ∈ natDigitList fuel n, d < 10 := by
  intro fuel
  induction fuel with
  | zero => intro n d hd; simp [natDigitList] at hd
  | succ f ih =>
      intro n d hd
      by_cases hn : n < 10
      · simp [natDigitList, hn] at hd; omega
      · simp [natDigitList, hn] at hd
        rcases hd with h | h
        · exact ih _ _ h
        · omega

/-- `natDigitList` with positive fuel is non-empty. -/
theorem natDigitList_ne_nil (fuel n : Nat) : natDigitList (fuel + 1) n ≠ [] := by
  by_cases hn : n < 10 <;> simp [natDigitList, hn]

/-- The leading digit of a positive number is non-zero. -/
theorem natDigitList_head_pos :
    ∀ fuel n, 1 ≤ n → n ≤ fuel → (natDigitList fuel n).headI ≠ 0 := by
  intro fuel
  induction fuel with
  | zero => intro n h1 h2; omega
  | succ f ih =>
      intro n h1 h2
      by_cases hn : n < 10
      · simp [natDigitList, hn]; omega
      · have hq1 : 1 ≤ n / 10 := by omega
        have hq2 : n / 10 ≤ f := by omega
        have hne : natDigitList f (n / 10) ≠ [] := by
          cases f with
          | zero => omega
          | succ f' => exact natDigitList_ne_nil f' _
        obtain ⟨a, l, hl⟩ := List.exists_cons_of_ne_nil hne
        have hh := ih (n / 10) hq1 hq2
        rw [hl] at hh
        simp [natDigitList, hn, hl]
        simpa using hh

/-- Folding the digits reconstructs the number. -/
theorem natDigitList_val :
    ∀ fuel n, n < fuel → ∀ acc,
      List.foldl (fun a d => a * 10 + d) acc (natDigitList fuel n)
        = acc * 10 ^ (natDigitList fuel n).length + n := by
  intro fuel
  induction fuel with
  | zero => intro n h; omega
  | succ f ih =>
      intro n h acc
      by_cases hn : n < 10
      · simp [natDigitList, hn]
      · have hq : n / 10 < f := by omega
        have ihq := ih (n / 10) hq acc
        have hmod : n / 10 * 10 + n % 10 = n := by omega
        simp only [natDigitList, if_neg hn, List.foldl_append, List.foldl_cons,
          List.foldl_nil, List.length_append, List.length_cons, List.length_nil, ihq]
        ring_nf
        omega

/-- Splitting digits off a rendered digit list. -/
theorem digitsSpan_map :
    ∀ (ds : List Nat), (∀ d ∈ ds, d < 10) → ∀ rest, digitLead rest = false →
      digitsSpan (ds.map digitChar ++ rest) = (ds, rest) := by
  intro ds
  induction ds with
  | nil =>
      intro _ rest hr
      cases rest with
      | nil => rfl
      | cons c cs =>
          simp only [digitLead] at hr
          simp [digitsSpan, hr]
  | cons d ds ih =>
      intro h rest hr
      have hd : d < 10 := h d (by simp)
      have hf := digitChar_facts d hd
      have ihr := ih (fun x hx => h x (by simp [hx])) rest hr
      simp [digitsSpan, hf.1, hf.2.1, ihr]

/-- `parseNumber` inverts the decimal rendering of a natural number. -/
theorem parseNumber_natDigits (n : Nat) (rest : List Char)
    (hd : digitLead rest = false) (hf : fracExpLead rest = false) :
    parseNumber (natDigits n ++ rest) = some (n, rest) := by
  have hlt : ∀ d ∈ natDigitList (n + 1) n, d < 10 := natDigitList_lt_ten (n + 1) n
  have hspan := digitsSpan_map (natDigitList (n + 1) n) hlt rest hd
  have hne := natDigitList_ne_nil n n
  have hlead : ¬((natDigitList (n + 1) n).length > 1 ∧ (natDigitList (n + 1) n).headI = 0) := by
    by_cases hn : n < 10
    · simp [natDigitList, hn]
    · have := natDigitList_head_pos (n + 1) n (by omega) (by omega)
      tauto
  have hval : digitsVal (natDigitList (n + 1) n) = n := by
    have := natDigitList_val (n + 1) n (by omega) 0
    simpa [digitsVal] using this
  simp [parseNumber, natDigits, hspan, hne, hlead, hf, hval]

/-- `parseStringChars` inverts the literal rendering of a safe string. -/
theorem parseStringChars_safe :
    ∀ (s : List Char), (∀ c ∈ s, jsonSafeChar c = true) →
      ∀ (fuel : Nat) (rest : List Char), s.length ≤ fuel →
        parseStringChars fuel (s ++ '"' :: rest) = some (s, rest) := by
  intro s
  induction s with
  | nil =>
      intro _ fuel rest _
      cases fuel <;> simp [parseStringChars]
  | cons c cs ih =>
      intro h fuel rest hfl
      have hc : jsonSafeChar c = true := h c (by simp)
      simp only [jsonSafeChar, Bool.decide_and, Bool.and_eq_true, decide_eq_true_eq] at hc
      cases fuel with
      | zero => simp at hfl
      | succ f =>
          have ihr := ih (fun x hx => h x (by simp [hx])) f rest (by
            simp only [List.length_cons] at hfl; omega)
          have hz : ¬(c.toNat < 32) := by omega
          simp [parseStringChars, hc.2.2.1, hc.2.2.2, hz, ihr]

/-- ASCII characters encode to single UTF-8 bytes. -/
theorem utf8Char_ascii (c : Char) (h : c.toNat < 128) : utf8Char c = [c.toNat] := by
  simp [utf8Char]
  omega

/-- UTF-8 bytes of ASCII characters are just the code points. -/
theorem utf8Bytes_ascii :
    ∀ (cs : List Char), (∀ c ∈ cs, c.toNat < 128) →
      cs.flatMap utf8Char = cs.map Char.toNat := by
  intro cs
  induction cs with
  | nil => intro _; rfl
  | cons c tl ih =>
      intro h
      have hc := h c (by simp)
      simp [utf8Char_ascii c hc, ih (fun x hx => h x (by simp [hx]))]

/-- UTF-8 decoding inverts the encoding of ASCII characters. -/
theorem utf8DecodeFuel_ascii :
    ∀ (cs : List Char) (fuel : Nat), (∀ c ∈ cs, c.toNat < 128) → cs.length ≤ fuel →
      utf8DecodeFuel fuel (cs.map Char.toNat) = cs := by
  intro cs
  induction cs with
  | nil =>
      intro fuel _ _
      cases fuel <;> rfl
  | cons c tl ih =>
      intro fuel h hfl
      have hc := h c (by simp)
      cases fuel with
      | zero => simp at hfl
      | succ f =>
          have ihr := ih f (fun x hx => h x (by simp [hx])) (by
            simp only [List.length_cons] at hfl; omega)
          simp [utf8DecodeFuel, hc, ihr, Char.ofNat_toNat]

/-- `parseValue` on a rendered string literal. -/
theorem parseValue_str (s : String) (hs : jsonSafe s = true) (fuel : Nat) (rest : List Char) :
    parseValue (fuel + 1) ('"' :: (s.data ++ '"' :: rest)) = some (.str s, rest) := by
  have hsc : ∀ c ∈ s.data, jsonSafeChar c = true := by
    simpa [jsonSafe, List.all_eq_true] using hs
  have hlen : s.data.length = s.length := rfl
  have hps := parseStringChars_safe s.data hsc (s.length + (rest.length + 1)) rest (by omega)
  simp [parseValue, skipWs, hps, string_eta]

/-- `parseValue` on a rendered integer. -/
theorem parseValue_int (v : Int) (fuel : Nat) (rest : List Char)
    (hd : digitLead rest = false) (hf : fracExpLead rest = false) :
    parseValue (fuel + 1) (intDigits v ++ rest) = some (.num v, rest) := by
  by_cases hv : v < 0
  · have hpn := parseNumber_natDigits (-v).toNat rest hd hf
    have hvv : ((-v).toNat : Int) = -v := by omega
    simp [intDigits, hv, parseValue, skipWs, hpn, hvv]
  · obtain ⟨d0, ds, hds⟩ := List.exists_cons_of_ne_nil (natDigitList_ne_nil v.toNat v.toNat)
    have hd0 : d0 < 10 :=
      natDigitList_lt_ten (v.toNat + 1) v.toNat d0 (by rw [hds]; simp)
    have hfacts := digitChar_facts d0 hd0
    have hshape : intDigits v ++ rest = digitChar d0 :: (ds.map digitChar ++ rest) := by
      simp [intDigits, hv, natDigits, hds]
    have hpn := parseNumber_natDigits v.toNat rest hd hf
    have hshape2 : natDigits v.toNat ++ rest = digitChar d0 :: (ds.map digitChar ++ rest) := by
      simp [natDigits, hds]
    rw [hshape2] at hpn
    rw [hshape]
    have hvv : (v.toNat : Int) = v := by omega
    simp [parseValue, skipWs, hfacts.2.2.2.2.2.2.1, hfacts.1,
      hfacts.2.2.1, hfacts.2.2.2.1, hfacts.2.2.2.2.1, hfacts.2.2.2.2.2.1, hpn, hvv]

/-- Characters of a safe string are safe. -/
theorem jsonSafe_chars {s : String} (hs : jsonSafe s = true) :
    ∀ c ∈ s.data, jsonSafeChar c = true := by
  simpa [jsonSafe, List.all_eq_true] using hs

/-- `parseMembers` on a string member followed by a comma. -/
theorem parseMembers_str_cons (k v : String) (hk : jsonSafe k = true) (hv : jsonSafe v = true)
    (fuel : Nat) (rest : List Char) :
    parseMembers (fuel + 2) (strMember k v ',' rest)
      = (parseMembers (fuel + 1) rest).map fun p => ((k, Json.str v) :: p.1, p.2) := by
  simp [strMember, parseMembers, skipWs, parseStringChars_safe k.data (jsonSafe_chars hk),
    parseValue_str v hv fuel (',' :: rest), string_eta]

/-- `parseMembers` on a final string member, closing the object. -/
theorem parseMembers_str_last (k v : String) (hk : jsonSafe k = true) (hv : jsonSafe v = true)
    (fuel : Nat) (rest : List Char) :
    parseMembers (fuel + 2) (strMember k v '}' rest) = some ([(k, Json.str v)], rest) := by
  simp [strMember, parseMembers, skipWs, parseStringChars_safe k.data (jsonSafe_chars hk),
    parseValue_str v hv fuel ('}' :: rest), string_eta]

/-- `parseMembers` on an integer member followed by a comma. -/
theorem parseMembers_num_cons (k : String) (hk : jsonSafe k = true) (n : Int)
    (fuel : Nat) (rest : List Char) :
    parseMembers (fuel + 2) ('"' :: (k.data ++ '"' :: ':' :: (intDigits n ++ ',' :: rest)))
      = (parseMembers (fuel + 1) rest).map fun p => ((k, Json.num n) :: p.1, p.2) := by
  simp [parseMembers, skipWs, parseStringChars_safe k.data (jsonSafe_chars hk),
    parseValue_int n fuel (',' :: rest) (by simp [digitLead, isDigitChar])
      (by simp [fracExpLead]), string_eta]

/-- All safety hypotheses for a proof's string fields. -/
def proofSafe (p : PaymentProof) : Bool :=
  jsonSafe p.nonce ∧ jsonSafe p.requestHash ∧ jsonSafe p.payer ∧
    jsonSafe p.timestamp ∧ jsonSafe p.expiresAt ∧ jsonSafe p.signature

/-- One definitional step: a value starting `{"` parses its members. -/
theorem parseValue_obj_step (fuel : Nat) (tail : List Char) :
    parseValue (fuel + 1) ('{' :: ('"' :: tail))
      = (parseMembers fuel ('"' :: tail)).map fun q => ((Json.obj q.1 : Json), q.2) := rfl

/-- Parsing the rendered proof object yields exactly `proofJson`. -/
theorem parseValue_renderProof (p : PaymentProof) (hsafe : proofSafe p = true) (M : Nat) :
    parseValue (M + 9) (renderProofChars p) = some (proofJson p, []) := by
  simp only [proofSafe, Bool.decide_and, Bool.and_eq_true, decide_eq_true_eq] at hsafe
  obtain ⟨hn, hrh, hp, ht, he, hs⟩ := hsafe
  rw [show M + 9 = (M + 8) + 1 from rfl]
  unfold renderProofChars
  rw [List.cons_append, parseValue_obj_step]
  rw [show M + 8 = (M + 6) + 2 from rfl,
    parseMembers_num_cons "version" (by decide) p.version (M + 6)]
  rw [show (M + 6) + 1 = (M + 5) + 2 from rfl,
    parseMembers_str_cons "nonce" p.nonce (by decide) hn (M + 5)]
  rw [show (M + 5) + 1 = (M + 4) + 2 from rfl,
    parseMembers_str_cons "requestHash" p.requestHash (by decide) hrh (M + 4)]
  rw [show (M + 4) + 1 = (M + 3) + 2 from rfl,
    parseMembers_str_cons "payer" p.payer (by decide) hp (M + 3)]
  rw [show (M + 3) + 1 = (M + 2) + 2 from rfl,
    parseMembers_str_cons "timestamp" p.timestamp (by decide) ht (M + 2)]
  rw [show (M + 2) + 1 = (M + 1) + 2 from rfl,
    parseMembers_str_cons "expiresAt" p.expiresAt (by decide) he (M + 1)]
  rw [show (M + 1) + 1 = M + 2 from rfl,
    parseMembers_str_last "signature" p.signature (by decide) hs M]
  rfl

/-- `String.mk` then `data` is the identity on character lists. -/
theorem mk_data (l : List Char) : (⟨l⟩ : String).data = l := rfl

/-- Safe characters are ASCII. -/
theorem jsonSafeChar_ascii {c : Char} (h : jsonSafeChar c = true) : c.toNat < 128 := by
  simp only [jsonSafeChar, Bool.decide_and, Bool.and_eq_true, decide_eq_true_eq] at h
  omega

/-- Rendered integers are ASCII. -/
theorem intDigits_ascii (v : Int) : ∀ c ∈ intDigits v, c.toNat < 128 := by
  intro c hc
  have hnat : ∀ (m : Nat), c ∈ natDigits m → c.toNat < 128 := by
    intro m hm
    simp only [natDigits, List.mem_map] at hm
    obtain ⟨d, hd, rfl⟩ := hm
    exact (digitChar_facts d (natDigitList_lt_ten _ _ d hd)).2.2.2.2.2.2.2
  by_cases hv : v < 0
  · simp only [intDigits, if_pos hv, List.mem_cons] at hc
    rcases hc with rfl | hc
    · decide
    · exact hnat _ hc
  · simp only [intDigits, if_neg hv] at hc
    exact hnat _ hc

/-- Every character of the rendered proof is ASCII. -/
theorem renderProof_ascii (p : PaymentProof) (hsafe : proofSafe p = true) :
    ∀ c ∈ renderProofChars p, c.toNat < 128 := by
  simp only [proofSafe, Bool.decide_and, Bool.and_eq_true, decide_eq_true_eq] at hsafe
  obtain ⟨hn, hrh, hp, ht, he, hs⟩ := hsafe
  have lit : ∀ (s : String), jsonSafe s = true → ∀ c ∈ s.data, c.toNat < 128 :=
    fun s h c hc => jsonSafeChar_ascii (jsonSafe_chars h c hc)
  simp only [renderProofChars, strMember, List.forall_mem_cons, List.forall_mem_append]
  repeat' apply And.intro
  all_goals first
    | decide
    | exact intDigits_ascii p.version
    | exact lit _ hn
    | exact lit _ hrh
    | exact lit _ hp
    | exact lit _ ht
    | exact lit _ he
    | exact lit _ hs

/-- Decoding the encoded proof header recovers the proof's JSON value. -/
theorem headerJson_encodeProof (p : PaymentProof) (hsafe : proofSafe p = true) :
    headerJson (encodeProof p) = some (proofJson p) := by
  have hascii := renderProof_ascii p hsafe
  have hmap : utf8Bytes (renderProofJson p) = (renderProofChars p).map Char.toNat := by
    simpa [utf8Bytes, renderProofJson, mk_data] using utf8Bytes_ascii (renderProofChars p) hascii
  have hlt : ∀ b ∈ (renderProofChars p).map Char.toNat, b < 256 := by
    intro b hb
    simp only [List.mem_map] at hb
    obtain ⟨c, hc, rfl⟩ := hb
    have := hascii c hc
    omega
  have hdec : utf8Decode ((renderProofChars p).map Char.toNat) = renderProofJson p := by
    have h := utf8DecodeFuel_ascii (renderProofChars p)
      ((renderProofChars p).map Char.toNat).length hascii (by simp)
    simp only [utf8Decode, renderProofJson]
    exact congrArg String.mk h
  have h8 : 8 ≤ (renderProofChars p).length := by
    simp [renderProofChars, strMember]
  have hfe : (renderProofChars p).length + 1 = ((renderProofChars p).length - 8) + 9 := by
    omega
  have hpv := parseValue_renderProof p hsafe ((renderProofChars p).length - 8)
  simp only [headerJson, encodeProof, base64urlEncode, base64urlDecode, mk_data, hmap,
    base64url_roundtrip _ hlt, Option.bind_eq_bind, Option.some_bind, hdec]
  simp only [jsonParse, renderProofJson, mk_data, hfe, hpv, skipWs]
  simp

/-- Field access on a decoded proof object. -/
theorem jsGet_proof_nonce (p : PaymentProof) :
    jsGet (proofJson p) "nonce" = some (.str p.nonce) := rfl

/-- Field access on a decoded proof object. -/
theorem jsGet_proof_requestHash (p : PaymentProof) :
    jsGet (proofJson p) "requestHash" = some (.str p.requestHash) := rfl

/-- Field access on a decoded proof object. -/
theorem jsGet_proof_expiresAt (p : PaymentProof) :
    jsGet (proofJson p) "expiresAt" = some (.str p.expiresAt) := rfl

/-- Field access on a decoded proof object. -/
theorem jsGet_proof_signature (p : PaymentProof) :
    jsGet (proofJson p) "signature" = some (.str p.signature) := rfl

/-- Field access on a decoded proof object. -/
theorem jsGet_proof_version (p : PaymentProof) :
    jsGet (proofJson p) "version" = some (.num p.version) := rfl

/-- A freshly paid mock proof verifies under the same secret and
request hash (shared workhorse for the round-trip results). -/
theorem mockVerify_roundtrip_accept (S addr : String) (c : Challenge) (payMs nowMs t : Int)
    (hsafe : proofSafe (mockPay S addr payMs c) = true)
    (hexp : parseDateISO c.expiresAt = some t) (hnow : nowMs < t) :
    mockVerify S nowMs (encodeProof (mockPay S addr payMs c)) c.requestHash = some true := by
  have hdr := headerJson_encodeProof (mockPay S addr payMs c) hsafe
  simp only [mockVerify, hdr]
  simp [jsGet_proof_requestHash, jsGet_proof_expiresAt,
    jsGet_proof_nonce, jsGet_proof_signature, mockPay, dateValueOf, hexp,
    jsToString, jsPrimToString, not_le.mpr hnow]

/-- C5: the mock round-trip — a `MockPayer` proof encoded as a base64url
JSON header verifies under `MockVerifier` with the same secret and the
same `requestHash` while the challenge is unexpired; it fails under a
secret whose HMAC differs, against a different `requestHash`, and once
`expiresAt` has passed. -/
theorem C5_mock_roundtrip
    (S S' addr : String) (c : Challenge) (payMs nowMs t : Int) (rh' : String)
    (hsafe : proofSafe (mockPay S addr payMs c) = true)
    (hexp : parseDateISO c.expiresAt = some t) :
    (nowMs < t →
      mockVerify S nowMs (encodeProof (mockPay S addr payMs c)) c.requestHash = some true)
    ∧ (nowMs < t →
        hmacHex S' (c.nonce ++ "|" ++ c.requestHash)
            ≠ hmacHex S (c.nonce ++ "|" ++ c.requestHash) →
        mockVerify S' nowMs (encodeProof (mockPay S addr payMs c)) c.requestHash = some false)
    ∧ (rh' ≠ c.requestHash →
        mockVerify S nowMs (encodeProof (mockPay S addr payMs c)) rh' = some false)
    ∧ (t ≤ nowMs →
        mockVerify S nowMs (encodeProof (mockPay S addr payMs c)) c.requestHash = some false) := by
  have hdr := headerJson_encodeProof (mockPay S addr payMs c) hsafe
  refine ⟨?_, ?_, ?_, ?_⟩
  · intro hnow
    exact mockVerify_roundtrip_accept S addr c payMs nowMs t hsafe hexp hnow
  · intro hnow hsig
    simp only [mockVerify, hdr]
    simp [jsGet_proof_requestHash, jsGet_proof_expiresAt,
      jsGet_proof_nonce, jsGet_proof_signature, mockPay, dateValueOf, hexp,
      jsToString, jsPrimToString, not_le.mpr hnow, hsig]
    exact Ne.symm hsig
  · intro hrh
    simp only [mockVerify, hdr]
    simp [jsGet_proof_requestHash, mockPay, Ne.symm hrh]
  · intro hnow
    simp only [mockVerify, hdr]
    simp [jsGet_proof_requestHash, jsGet_proof_expiresAt,
      mockPay, dateValueOf, hexp, hnow]

/-- A concrete challenge for witnesses: expires 2025-10-11T00:05Z. -/
def mockChallenge : Challenge :=
  ⟨1, "exact", "0.001", "USDC", "mock", "0xTEST", "rt-nonce",
   "2025-10-11T00:05:00.000Z",
   "bbbbbbbbbbbbbbbbbbbbbbbbbbbbbbbbbbbbbbbbbbbbbbbbbbbbbbbbbbbbbbbb", none⟩

/-- Witness for C5 at a concrete challenge, secrets and clock. -/
theorem C5_mock_roundtrip_witness :
    proofSafe (mockPay "round-trip-secret" "mock://0x1" 1760140800000 mockChallenge) = true
    ∧ parseDateISO mockChallenge.expiresAt = some 1760141100000
    ∧ mockVerify "round-trip-secret" 1760140800000
        (encodeProof (mockPay "round-trip-secret" "mock://0x1" 1760140800000 mockChallenge))
        mockChallenge.requestHash = some true
    ∧ mockVerify "wrong-secret" 1760140800000
        (encodeProof (mockPay "round-trip-secret" "mock://0x1" 1760140800000 mockChallenge))
        mockChallenge.requestHash = some false
    ∧ mockVerify "round-trip-secret" 1760140800000
        (encodeProof (mockPay "round-trip-secret" "mock://0x1" 1760140800000 mockChallenge))
        "cccccccccccccccccccccccccccccccccccccccccccccccccccccccccccccccc" = some false
    ∧ mockVerify "round-trip-secret" 1760141100000
        (encodeProof (mockPay "round-trip-secret" "mock://0x1" 1760140800000 mockChallenge))
        mockChallenge.requestHash = some false := by
  have hsafe :
      proofSafe (mockPay "round-trip-secret" "mock://0x1" 1760140800000 mockChallenge) = true := by
    rfl
  have hexp : parseDateISO mockChallenge.expiresAt = some 1760141100000 := by rfl
  have hneq : hmacHex "wrong-secret" (mockChallenge.nonce ++ "|" ++ mockChallenge.requestHash)
      ≠ hmacHex "round-trip-secret" (mockChallenge.nonce ++ "|" ++ mockChallenge.requestHash) := by
    decide
  have T := C5_mock_roundtrip "round-trip-secret" "wrong-secret" "mock://0x1" mockChallenge
    1760140800000 1760140800000 1760141100000
    "cccccccccccccccccccccccccccccccccccccccccccccccccccccccccccccccc" hsafe hexp
  have T2 := C5_mock_roundtrip "round-trip-secret" "wrong-secret" "mock://0x1" mockChallenge
    1760140800000 1760141100000 1760141100000
    "cccccccccccccccccccccccccccccccccccccccccccccccccccccccccccccccc" hsafe hexp
  exact ⟨hsafe, hexp, T.1 (by decide), T.2.1 (by decide) hneq,
    T.2.2.1 (by decide), T2.2.2.2 (by decide)⟩

/-! ## SolanaUSDCVerifier (solana/verifier.ts)

The RPC is modelled as a function `chain` from a transaction signature
to the parsed transaction (`none` = RPC error or absent transaction),
and the associated-token-address derivation as a function `deriveAta`
from the recipient address to the expected ATA (`none` = the
`new PublicKey`/derivation throw that the source catches). The parsed
`tokenAmount.amount` decimal string is modelled as its numeric value.
The `blockTime > expiry.getTime() / 1000` float comparison is modelled
exactly on integers as `blockTime * 1000 > expiryMs`, and likewise for
the staleness bound. -/

/-- Modelled from the spec: `constants.ts` is not among the sources; the
spec lists the process-wide constants "USDC devnet mint, SPL-token
program id, memo program id, USDC decimals = 6". Only the identity of
these strings matters to the verifier. -/
def USDC_DEVNET_MINT : String := "4zMMC9srt5Ri5X14GAgXhaHii3GnPAEERYPJgZJDncDU"

/-- Modelled from the spec: the SPL token program id constant. -/
def SPL_TOKEN_PROGRAM_ID : String := "TokenkegQfeZyiNwAJbNbGKPFXCWuBvf9Ss623VQ5DA"

/-- Modelled from the spec: the memo program id constant. -/
def MEMO_PROGRAM_ID : String := "MemoSq4gqABAXKb96qnH8TysNcWxMyWCqXgDLGmfcHr"

/-- The `info` of a parsed `transferChecked` instruction. -/
structure TransferInfo where
  mint : String
  destination : String
  source : String
  authority : String
  amount : Int

/-- The `parsed` field of an instruction. -/
inductive ParsedIx where
  | str (s : String)
  | transferChecked (info : TransferInfo)
  | other

/-- One instruction of a parsed transaction (`parsed = none` models an
instruction without a `parsed` field). -/
structure Instr where
  programId : String
  parsed : Option ParsedIx

/-- A parsed transaction as returned by `getParsedTransaction`. -/
structure ParsedTx where
  blockTime : Option Int
  instructions : List Instr

/-- Model of `BigInt(string)` restricted to optionally signed decimal
strings: the empty string is `0`, a malformed string throws (`none`).
(The built-in also accepts `0x/0o/0b` prefixes and surrounding
whitespace; no price string in this system uses them.) -/
def bigIntOfString (s : String) : Option Int :=
  match s.data with
  | [] => some 0
  | c :: ds =>
      if c = '-' then
        if ds ≠ [] ∧ ds.all isDigitChar then
          some (-(digitsVal (ds.map fun x => x.toNat - 48) : Int))
        else none
      else if c = '+' then
        if ds ≠ [] ∧ ds.all isDigitChar then
          some ((digitsVal (ds.map fun x => x.toNat - 48) : Int))
        else none
      else
        if (c :: ds).all isDigitChar then
          some ((digitsVal ((c :: ds).map fun x => x.toNat - 48) : Int))
        else none

/-- `priceToMicroUnits` from `solana/verifier.ts` (the same function
appears in `solana/payer.ts`): split the decimal string on `.`, right-pad
the fractional part to 6 digits and truncate it to 6, then combine with
integer (`BigInt`) arithmetic. `none` models a `BigInt` throw on a
malformed part. -/
def priceToMicroUnits (price : String) : Option Int :=
  let parts := splitOnChar '.' price.data
  let intPart : String := ⟨parts.headI⟩
  let fracPart : String := ⟨(parts.drop 1).headI⟩
  let frac : String := ⟨(fracPart.data ++ List.replicate (6 - fracPart.data.length) '0').take 6⟩
  (bigIntOfString intPart).bind fun i =>
    (bigIntOfString frac).map fun f => i * 1000000 + f

theorem priceToMicroUnits_example_1 : priceToMicroUnits "1.5" = some 1500000 := rfl

theorem priceToMicroUnits_example_2 : priceToMicroUnits "0.001" = some 1000 := rfl

/-- `SolanaUSDCVerifier.verify`. `none` models an uncaught exception
(only the `BigInt` conversion of a malformed configured price). -/
def solanaVerify (tol : Int) (deriveAta : String → Option String)
    (chain : String → Option ParsedTx) (nowMs : Int)
    (proofHeader requestHash : String) (pricing : PricingConfig) : Option Bool :=
  match headerJson proofHeader with
  | none => some false
  | some j =>
    match jsGet j "requestHash" with
    | some (.str rh) =>
      if rh ≠ requestHash then some false
      else
        match dateValueOf (jsGet j "expiresAt") with
        | none => some false
        | some expMs =>
          if expMs ≤ nowMs then some false
          else
            match jsGet j "version" with
            | some (.num v) =>
              if v ≠ 1 then some false
              else
                match jsGet j "signature" with
                | some (.str sig) =>
                  match chain sig with
                  | none => some false
                  | some tx =>
                    match priceToMicroUnits pricing.price with
                    | none => none
                    | some expectedAmount =>
                      match deriveAta pricing.recipient with
                      | none => some false
                      | some ata =>
                        let transferOk := tx.instructions.any fun ix =>
                          ix.programId == SPL_TOKEN_PROGRAM_ID &&
                            match ix.parsed with
                            | some (.transferChecked info) =>
                                info.mint == USDC_DEVNET_MINT &&
                                  info.destination == ata &&
                                  expectedAmount - tol ≤ info.amount
                            | _ => false
                        let memoOk := tx.instructions.any fun ix =>
                          ix.programId == MEMO_PROGRAM_ID &&
                            match ix.parsed with
                            | some (.str s) =>
                                s == jsToString (jsGet j "nonce") ++ "|"
                                  ++ jsToString (jsGet j "requestHash")
                            | _ => false
                        if transferOk && memoOk then
                          match tx.blockTime with
                          | none => some false
                          | some bt =>
                            if bt * 1000 > expMs then some false
                            else if (bt + 600) * 1000 < nowMs then some false
                            else some true
                        else some false
                | _ => some false
            | _ => some false
    | _ => some false

/-- The transfer-scan predicate, spelled out. -/
theorem transfer_pred_iff (ix : Instr) (ata : String) (expAmt tol : Int) :
    (ix.programId == SPL_TOKEN_PROGRAM_ID &&
      match ix.parsed with
      | some (.transferChecked info) =>
          info.mint == USDC_DEVNET_MINT && info.destination == ata &&
            expAmt - tol ≤ info.amount
      | _ => false) = true
    ↔ ix.programId = SPL_TOKEN_PROGRAM_ID ∧
        ∃ info, ix.parsed = some (.transferChecked info) ∧
          info.mint = USDC_DEVNET_MINT ∧ info.destination = ata ∧
          expAmt - tol ≤ info.amount := by
  rcases ix with ⟨pid, parsed⟩
  rcases parsed with _ | p
  · simp
  · cases p <;> simp [and_assoc]

/-- The memo-scan predicate, spelled out. -/
theorem memo_pred_iff (ix : Instr) (payload : String) :
    (ix.programId == MEMO_PROGRAM_ID &&
      match ix.parsed with
      | some (.str s) => s == payload
      | _ => false) = true
    ↔ ix.programId = MEMO_PROGRAM_ID ∧ ix.parsed = some (.str payload) := by
  rcases ix with ⟨pid, parsed⟩
  rcases parsed with _ | p
  · simp
  · cases p <;> simp

/-- The whole transfer scan as an existential. -/
theorem any_transfer_iff (l : List Instr) (ata : String) (expAmt tol : Int) :
    (l.any fun ix =>
      ix.programId == SPL_TOKEN_PROGRAM_ID &&
        match ix.parsed with
        | some (.transferChecked info) =>
            info.mint == USDC_DEVNET_MINT && info.destination == ata &&
              expAmt - tol ≤ info.amount
        | _ => false) = true
    ↔ ∃ ix ∈ l, ix.programId = SPL_TOKEN_PROGRAM_ID ∧
        ∃ info, ix.parsed = some (.transferChecked info) ∧
          info.mint = USDC_DEVNET_MINT ∧ info.destination = ata ∧
          expAmt - tol ≤ info.amount := by
  simp only [List.any_eq_true, transfer_pred_iff]

/-- The whole memo scan as an existential. -/
theorem any_memo_iff (l : List Instr) (payload : String) :
    (l.any fun ix =>
      ix.programId == MEMO_PROGRAM_ID &&
        match ix.parsed with
        | some (.str s) => s == payload
        | _ => false) = true
    ↔ ∃ ix ∈ l, ix.programId = MEMO_PROGRAM_ID ∧ ix.parsed = some (.str payload) := by
  simp only [List.any_eq_true, memo_pred_iff]

/-- The blockTime window check as an existential. -/
theorem blocktime_iff (tx : ParsedTx) (expMs nowMs : Int) :
    (match tx.blockTime with
      | none => some false
      | some bt =>
        if bt * 1000 > expMs then some false
        else if (bt + 600) * 1000 < nowMs then some false
        else some true) = some true
    ↔ ∃ bt, tx.blockTime = some bt ∧ bt * 1000 ≤ expMs ∧ nowMs ≤ (bt + 600) * 1000 := by
  cases tx.blockTime with
  | none => simp
  | some bt =>
      dsimp only
      split_ifs with h1 h2 <;> simp <;> omega

/-- C4: with the RPC modelled, `SolanaUSDCVerifier.verify` accepts
exactly when the fetched transaction carries a qualifying
`transferChecked` (USDC mint, derived recipient ATA, amount at least
expected minus tolerance), a memo equal to `nonce|requestHash`, and a
non-null `blockTime` at most `expiresAt` and at least `now - 600 s`,
given that the proof decodes with matching `requestHash`, unexpired
`expiresAt` and version 1. -/
theorem C4_solana_verify_iff
    (tol : Int) (deriveAta : String → Option String) (chain : String → Option ParsedTx)
    (nowMs : Int) (h requestHash : String) (pricing : PricingConfig)
    (j : Json) (n sig : String) (expMs expAmt : Int) (ata : String)
    (hdr : headerJson h = some j)
    (hrh : jsGet j "requestHash" = some (.str requestHash))
    (hexp : dateValueOf (jsGet j "expiresAt") = some expMs)
    (hfresh : nowMs < expMs)
    (hver : jsGet j "version" = some (.num 1))
    (hnonce : jsGet j "nonce" = some (.str n))
    (hsig : jsGet j "signature" = some (.str sig))
    (hprice : priceToMicroUnits pricing.price = some expAmt)
    (hata : deriveAta pricing.recipient = some ata) :
    solanaVerify tol deriveAta chain nowMs h requestHash pricing = some true
      ↔ ∃ tx, chain sig = some tx
          ∧ (∃ ix ∈ tx.instructions, ix.programId = SPL_TOKEN_PROGRAM_ID ∧
               ∃ info, ix.parsed = some (.transferChecked info) ∧
                 info.mint = USDC_DEVNET_MINT ∧ info.destination = ata ∧
                 expAmt - tol ≤ info.amount)
          ∧ (∃ ix ∈ tx.instructions, ix.programId = MEMO_PROGRAM_ID ∧
               ix.parsed = some (.str (n ++ "|" ++ requestHash)))
          ∧ (∃ bt, tx.blockTime = some bt ∧ bt * 1000 ≤ expMs ∧ nowMs ≤ (bt + 600) * 1000) := by
  simp only [solanaVerify, hdr, hrh, hexp, hver, hsig, hprice, hata, hnonce,
    jsToString, jsPrimToString]
  rw [if_neg (by simp), if_neg (not_le.mpr hfresh), if_neg (by simp)]
  cases hchain : chain sig with
  | none => simp
  | some tx =>
      dsimp only
      simp only [Option.some.injEq, exists_eq_left']
      rw [← any_transfer_iff tx.instructions ata expAmt tol,
        ← any_memo_iff tx.instructions (n ++ "|" ++ requestHash),
        ← blocktime_iff tx expMs nowMs]
      cases hA : (tx.instructions.any fun ix =>
          ix.programId == SPL_TOKEN_PROGRAM_ID &&
            match ix.parsed with
            | some (.transferChecked info) =>
                info.mint == USDC_DEVNET_MINT && info.destination == ata &&
                  expAmt - tol ≤ info.amount
            | _ => false) <;>
        cases hB : (tx.instructions.any fun ix =>
            ix.programId == MEMO_PROGRAM_ID &&
              match ix.parsed with
              | some (.str s) => s == n ++ "|" ++ requestHash
              | _ => false) <;>
        simp [hA, hB]

/-! ### Concrete on-chain scenario for witnesses -/

/-- A concrete 64-hex request hash. -/
def solHashA : String :=
  "aaaaaaaaaaaaaaaaaaaaaaaaaaaaaaaaaaaaaaaaaaaaaaaaaaaaaaaaaaaaaaaa"

/-- The qualifying transfer instruction. -/
def solIxTransfer : Instr :=
  ⟨SPL_TOKEN_PROGRAM_ID,
   some (.transferChecked ⟨USDC_DEVNET_MINT, "ATA1", "SRC1", "AUTH1", 1000⟩)⟩

/-- The binding memo instruction. -/
def solIxMemo : Instr := ⟨MEMO_PROGRAM_ID, some (.str ("N1|" ++ solHashA))⟩

/-- A confirmed transaction ten seconds before the witness clock. -/
def solTxGood : ParsedTx := ⟨some 1760140790, [solIxTransfer, solIxMemo]⟩

/-- The modelled RPC: only `TX1` exists. -/
def solChain : String → Option ParsedTx :=
  fun s => if s = "TX1" then some solTxGood else none

/-- The modelled ATA derivation: only the configured recipient derives. -/
def solAta : String → Option String :=
  fun r => if r = "RCPT" then some "ATA1" else none

/-- The priced route's configuration for the scenario. -/
def solPricing : PricingConfig :=
  ⟨"0.001", "USDC", some "solana-devnet", "RCPT", none, none, none⟩

/-- The client's proof for the scenario. -/
def solProof : PaymentProof :=
  ⟨1, "N1", solHashA, "PAYER1", "2025-10-11T00:00:00.000Z",
   "2025-10-11T00:05:00.000Z", "TX1"⟩

/-- Witness for C4 at the concrete scenario. -/
theorem C4_solana_verify_iff_witness :
    headerJson (encodeProof solProof) = some (proofJson solProof)
    ∧ priceToMicroUnits solPricing.price = some 1000
    ∧ solAta solPricing.recipient = some "ATA1"
    ∧ solChain "TX1" = some solTxGood
    ∧ solanaVerify 0 solAta solChain 1760140800000 (encodeProof solProof) solHashA solPricing
        = some true := by
  have T := C4_solana_verify_iff 0 solAta solChain 1760140800000 (encodeProof solProof)
    solHashA solPricing (proofJson solProof) "N1" "TX1" 1760141100000 1000 "ATA1"
    rfl rfl rfl (by decide) rfl rfl rfl rfl rfl
  refine ⟨rfl, rfl, rfl, rfl, T.mpr ?_⟩
  refine ⟨solTxGood, rfl, ⟨solIxTransfer, by simp [solTxGood], rfl,
    ⟨⟨USDC_DEVNET_MINT, "ATA1", "SRC1", "AUTH1", 1000⟩, rfl, rfl, rfl, by decide⟩⟩,
    ⟨solIxMemo, by simp [solTxGood], rfl, rfl⟩,
    ⟨1760140790, rfl, by decide, by decide⟩⟩

/-- C9 counterexample: a mock proof that differs from an accepted one
only by carrying `version = 2` is still accepted by `MockVerifier` — the
mock verifier never reads the version field, so "wrong version ⇒ 402
under both verifiers" fails on the code. -/
theorem C9_counterexample :
    mockVerify "round-trip-secret" 1760140800000
        (encodeProof (mockPay "round-trip-secret" "mock://0x1" 1760140800000 mockChallenge))
        mockChallenge.requestHash = some true
    ∧ mockVerify "round-trip-secret" 1760140800000
        (encodeProof (mockPay "round-trip-secret" "mock://0x1" 1760140800000
          { mockChallenge with version := 2 }))
        mockChallenge.requestHash = some true := by
  exact ⟨mockVerify_roundtrip_accept "round-trip-secret" "mock://0x1" mockChallenge
      1760140800000 1760140800000 1760141100000 rfl rfl (by decide),
    mockVerify_roundtrip_accept "round-trip-secret" "mock://0x1"
      { mockChallenge with version := 2 }
      1760140800000 1760140800000 1760141100000 rfl rfl (by decide)⟩

/-- C9 (amended): a decoded proof whose `version` is not 1 makes the
on-chain verifier return false, whatever the other fields and the chain
contents; the mock verifier ignores the version field — re-encoding a
proof with any other version leaves its verdict unchanged. -/
theorem C9_wrong_version :
    (∀ (tol : Int) (deriveAta : String → Option String) (chain : String → Option ParsedTx)
       (nowMs : Int) (h requestHash : String) (pricing : PricingConfig) (j : Json) (v : Int),
       headerJson h = some j → jsGet j "version" = some (.num v) → v ≠ 1 →
       solanaVerify tol deriveAta chain nowMs h requestHash pricing = some false)
    ∧ (∀ (S : String) (nowMs : Int) (rh : String) (p : PaymentProof) (v : Int),
        proofSafe p = true →
        mockVerify S nowMs (encodeProof { p with version := v }) rh
          = mockVerify S nowMs (encodeProof p) rh) := by
  constructor
  · intro tol d ch now h rh pr j v hdr hver hv
    simp only [solanaVerify, hdr, hver]
    rcases hq : jsGet j "requestHash" with _ | jq
    · rfl
    · cases jq <;> try rfl
      rename_i rh'
      dsimp only
      by_cases hrh : rh' ≠ rh
      · rw [if_pos hrh]
      · rw [if_neg hrh]
        rcases hdv : dateValueOf (jsGet j "expiresAt") with _ | exp
        · rfl
        · dsimp only
          by_cases hle : exp ≤ now
          · rw [if_pos hle]
          · rw [if_neg hle, if_pos hv]
  · intro S now rh p v hsafe
    have hsafe' : proofSafe { p with version := v } = true := hsafe
    have h1 := headerJson_encodeProof { p with version := v } hsafe'
    have h2 := headerJson_encodeProof p hsafe
    simp only [mockVerify, h1, h2, jsGet_proof_requestHash, jsGet_proof_expiresAt,
      jsGet_proof_nonce, jsGet_proof_signature]

/-- Witness for C9's amended statement at concrete inputs. -/
theorem C9_wrong_version_witness :
    headerJson (encodeProof { solProof with version := 2 })
        = some (proofJson { solProof with version := 2 })
    ∧ jsGet (proofJson { solProof with version := 2 }) "version" = some (.num 2)
    ∧ solanaVerify 0 solAta solChain 1760140800000
        (encodeProof { solProof with version := 2 }) solHashA solPricing = some false
    ∧ proofSafe solProof = true
    ∧ mockVerify "round-trip-secret" 1760140800000
        (encodeProof { solProof with version := 7 }) solHashA
      = mockVerify "round-trip-secret" 1760140800000 (encodeProof solProof) solHashA := by
  refine ⟨rfl, rfl, ?_, rfl, ?_⟩
  · exact C9_wrong_version.1 0 solAta solChain 1760140800000
      (encodeProof { solProof with version := 2 }) solHashA solPricing
      (proofJson { solProof with version := 2 }) 2 rfl rfl (by decide)
  · exact C9_wrong_version.2 "round-trip-secret" 1760140800000 solHashA solProof 7 rfl

/-! ## C2: computeRequestHash as a byte-level concatenation digest -/

/-- UTF-8 encoding distributes over string concatenation. -/
theorem utf8Bytes_append (a b : String) : utf8Bytes (a ++ b) = utf8Bytes a ++ utf8Bytes b := by
  show (a.data ++ b.data).flatMap utf8Char = _
  rw [List.flatMap_append]
  rfl

/-- Every byte emitted by the SHA-256 model is below 256. -/
theorem sha256_bytes_lt (msg : List Nat) : ∀ b ∈ sha256 msg, b < 256 := by
  intro b hb
  simp only [sha256] at hb
  rcases List.mem_flatMap.mp hb with ⟨w, _, hw⟩
  simp only [List.mem_cons, List.not_mem_nil, or_false] at hw
  rcases hw with rfl | rfl | rfl | rfl <;> exact Nat.mod_lt _ (by norm_num)

/-- `hexDigit` of a value below 16 lands in the lowercase hex alphabet. -/
theorem hexDigit_mem_alphabet : ∀ n < 16, hexDigit n ∈ ("0123456789abcdef").data := by
  decide

/-- Hex rendering of bytes below 256 uses only lowercase hex characters. -/
theorem hexOfBytes_lowercase (bs : List Nat) (h : ∀ b ∈ bs, b < 256) :
    ∀ c ∈ (hexOfBytes bs).data, c ∈ ("0123456789abcdef").data := by
  intro c hc
  simp only [hexOfBytes] at hc
  rcases List.mem_flatMap.mp hc with ⟨b, hb, hcb⟩
  have hb' := h b hb
  simp only [hexByte, List.mem_cons, List.not_mem_nil, or_false] at hcb
  rcases hcb with rfl | rfl
  · exact hexDigit_mem_alphabet _ (by omega)
  · exact hexDigit_mem_alphabet _ (by omega)

/-- The newline separator's UTF-8 bytes. -/
theorem utf8Bytes_nl : utf8Bytes "\n" = [10] := rfl

/-- The worked example's preimage digest, computed directly. -/
theorem request_hash_example_preimage :
    sha256HexOfString "GET\n/weather\ncity=London\n"
      = "b9d7ead883bd3beebb1123aebdd9d7dc2a0c4493446851858b60778bb859cb61" := by
  rfl

/-- C2: `computeRequestHash` is the lowercase-hex SHA-256 digest of the
byte-level concatenation `METHOD ++ "\n" ++ PATH ++ "\n" ++
CANONICAL_QUERY ++ "\n" ++ RAW_BODY`, with the method upper-cased and
the three `\n` separators (byte `10`) always present; the digest
characters are lowercase hex; and
`computeRequestHash "GET" "/weather" "city=London" []` is exactly
`SHA256("GET\n/weather\ncity=London\n")`, with the expected digest. -/
theorem C2_computeRequestHash (method pathname rawQuery : String) (rawBody : List Nat) :
    computeRequestHash method pathname rawQuery rawBody
        = hexOfBytes (sha256 (utf8Bytes (toUpperAscii method) ++ [10] ++ utf8Bytes pathname
            ++ [10] ++ utf8Bytes (canonicalQueryString rawQuery) ++ [10] ++ rawBody))
    ∧ (∀ c ∈ (computeRequestHash method pathname rawQuery rawBody).data,
        c ∈ ("0123456789abcdef").data)
    ∧ computeRequestHash "GET" "/weather" "city=London" []
        = sha256HexOfString "GET\n/weather\ncity=London\n"
    ∧ sha256HexOfString "GET\n/weather\ncity=London\n"
        = "b9d7ead883bd3beebb1123aebdd9d7dc2a0c4493446851858b60778bb859cb61" := by
  refine ⟨?_, ?_, request_hash_example.trans request_hash_example_preimage.symm,
    request_hash_example_preimage⟩
  · simp only [computeRequestHash, utf8Bytes_append, utf8Bytes_nl]
  · intro c hc
    exact hexOfBytes_lowercase _ (sha256_bytes_lt _) c hc

/-- Witness for C2 at concrete inputs. -/
theorem C2_computeRequestHash_witness :
    computeRequestHash "GET" "/weather" "city=London" []
        = sha256HexOfString "GET\n/weather\ncity=London\n"
    ∧ 'b' ∈ ("0123456789abcdef").data :=
  ⟨(C2_computeRequestHash "GET" "/weather" "city=London" []).2.2.1,
   (C2_computeRequestHash "GET" "/weather" "city=London" []).2.1 'b' (by decide)⟩

/-! ## C8: exactness of priceToMicroUnits -/

/-- Digit characters are neither `+` nor `.`. -/
theorem digitChar_not_dot : ∀ d < 10, digitChar d ≠ '+' ∧ digitChar d ≠ '.' := by
  decide

/-- Splitting a separator-free list yields the single segment. -/
theorem splitOnChar_no_sep (sep : Char) :
    ∀ l : List Char, (∀ c ∈ l, c ≠ sep) → splitOnChar sep l = [l] := by
  intro l
  induction l with
  | nil => intro _; rfl
  | cons c cs ih =>
      intro h
      simp only [splitOnChar]
      rw [if_neg (h c (List.mem_cons_self _ _)),
          ih fun x hx => h x (List.mem_cons_of_mem _ hx)]

/-- Splitting `a ++ sep :: b` with separator-free `a` and `b` yields `[a, b]`. -/
theorem splitOnChar_mid (sep : Char) (b : List Char) (hb : ∀ c ∈ b, c ≠ sep) :
    ∀ a : List Char, (∀ c ∈ a, c ≠ sep) → splitOnChar sep (a ++ sep :: b) = [a, b] := by
  intro a
  induction a with
  | nil =>
      intro _
      simp [splitOnChar, splitOnChar_no_sep sep b hb]
  | cons c cs ih =>
      intro h
      simp only [List.cons_append, splitOnChar, List.append_eq]
      rw [if_neg (h c (List.mem_cons_self _ _)),
          ih fun x hx => h x (List.mem_cons_of_mem _ hx)]

/-- Digit accumulation over a fold with an arbitrary accumulator. -/
theorem digitsVal_foldl (l : List Nat) :
    ∀ acc : Nat, l.foldl (fun a d => a * 10 + d) acc = acc * 10 ^ l.length + digitsVal l := by
  induction l with
  | nil => intro acc; simp [digitsVal]
  | cons d l ih =>
      intro acc
      have h2 : digitsVal (d :: l) = d * 10 ^ l.length + digitsVal l := by
        show l.foldl _ (0 * 10 + d) = _
        rw [ih]
        ring
      show l.foldl _ (acc * 10 + d) = acc * 10 ^ (l.length + 1) + digitsVal (d :: l)
      rw [ih, h2, pow_succ]
      ring

/-- Digit value of an appended list. -/
theorem digitsVal_append (a b : List Nat) :
    digitsVal (a ++ b) = digitsVal a * 10 ^ b.length + digitsVal b := by
  show (a ++ b).foldl _ 0 = _
  rw [List.foldl_append]
  exact digitsVal_foldl b (digitsVal a)

/-- Trailing zero digits contribute nothing. -/
theorem digitsVal_replicate_zero (k : Nat) : digitsVal (List.replicate k 0) = 0 := by
  induction k with
  | zero => rfl
  | succ k ih =>
      rw [List.replicate_succ]
      show (List.replicate k 0).foldl _ (0 * 10 + 0) = 0
      simpa [digitsVal] using ih

/-- A digit list's value is below `10 ^ length`. -/
theorem digitsVal_lt (l : List Nat) (h : ∀ d ∈ l, d < 10) : digitsVal l < 10 ^ l.length := by
  induction l with
  | nil => simp [digitsVal]
  | cons d l ih =>
      have hd : d < 10 := h d (List.mem_cons_self _ _)
      have hl := ih fun x hx => h x (List.mem_cons_of_mem _ hx)
      have hval : digitsVal (d :: l) = d * 10 ^ l.length + digitsVal l := by
        show l.foldl _ (0 * 10 + d) = _
        rw [digitsVal_foldl]
        ring
      rw [hval, List.length_cons, pow_succ]
      have step1 : d * 10 ^ l.length + digitsVal l < (d + 1) * 10 ^ l.length := by
        rw [Nat.succ_mul]
        exact Nat.add_lt_add_left hl _
      have step2 : (d + 1) * 10 ^ l.length ≤ 10 * 10 ^ l.length :=
        mul_le_mul_right' hd _
      calc d * 10 ^ l.length + digitsVal l < (d + 1) * 10 ^ l.length := step1
        _ ≤ 10 * 10 ^ l.length := step2
        _ = 10 ^ l.length * 10 := by ring

/-- Mapping to digit characters and back is the identity. -/
theorem digitChar_map_inv : ∀ M : List Nat, (∀ x ∈ M, x < 10) →
    (M.map digitChar).map (fun c => c.toNat - 48) = M
  | [], _ => rfl
  | a :: M, hM => by
      simp only [List.map_cons, List.cons.injEq]
      exact ⟨(digitChar_facts a (hM a (List.mem_cons_self _ _))).2.1,
             digitChar_map_inv M fun x hx => hM x (List.mem_cons_of_mem _ hx)⟩

/-- Digit characters all pass `isDigitChar`. -/
theorem digitChar_map_all : ∀ M : List Nat, (∀ x ∈ M, x < 10) →
    (M.map digitChar).all isDigitChar = true
  | [], _ => rfl
  | a :: M, hM => by
      simp only [List.map_cons, List.all_cons, Bool.and_eq_true]
      exact ⟨(digitChar_facts a (hM a (List.mem_cons_self _ _))).1,
             digitChar_map_all M fun x hx => hM x (List.mem_cons_of_mem _ hx)⟩

/-- Digit characters are never the decimal point. -/
theorem digitChar_map_no_dot (M : List Nat) (hM : ∀ x ∈ M, x < 10) :
    ∀ c ∈ M.map digitChar, c ≠ '.' := by
  intro c hc
  rcases List.mem_map.mp hc with ⟨x, hx, rfl⟩
  exact (digitChar_not_dot x (hM x hx)).2

/-- `BigInt` conversion of an unsigned digit string. -/
theorem bigIntOfString_digits (L : List Nat) (h : ∀ d ∈ L, d < 10) :
    bigIntOfString ⟨L.map digitChar⟩ = some ((digitsVal L : Nat) : Int) := by
  cases L with
  | nil => rfl
  | cons d L' =>
      have hd := h d (List.mem_cons_self _ _)
      show bigIntOfString ⟨digitChar d :: L'.map digitChar⟩ = _
      simp only [bigIntOfString, mk_data]
      rw [if_neg (digitChar_facts d hd).2.2.2.2.2.1, if_neg (digitChar_not_dot d hd).1,
          if_pos (show (digitChar d :: L'.map digitChar).all isDigitChar = true from
            digitChar_map_all (d :: L') h)]
      rw [show (digitChar d :: L'.map digitChar) = (d :: L').map digitChar from rfl,
          digitChar_map_inv (d :: L') h]

/-- The split/pad/truncate recombination equals exact integer division of
the scaled value (`Nat` arithmetic). -/
theorem digitsVal_price_formula (I F : List Nat) (hF : ∀ d ∈ F, d < 10) :
    digitsVal I * 10 ^ 6 + digitsVal ((F ++ List.replicate (6 - F.length) 0).take 6)
      = digitsVal (I ++ F) * 10 ^ 6 / 10 ^ F.length := by
  rw [digitsVal_append]
  by_cases hf : F.length ≤ 6
  · have hlen : (F ++ List.replicate (6 - F.length) 0).length = 6 := by
      simp only [List.length_append, List.length_replicate]
      omega
    rw [List.take_of_length_le (le_of_eq hlen), digitsVal_append, digitsVal_replicate_zero,
        List.length_replicate, Nat.add_zero]
    have hpow : 10 ^ F.length * 10 ^ (6 - F.length) = 10 ^ 6 := by
      rw [← pow_add]
      congr 1
      omega
    have key : (digitsVal I * 10 ^ F.length + digitsVal F) * 10 ^ 6
        = 10 ^ F.length * (digitsVal I * 10 ^ 6 + digitsVal F * 10 ^ (6 - F.length)) := by
      calc (digitsVal I * 10 ^ F.length + digitsVal F) * 10 ^ 6
          = digitsVal I * (10 ^ F.length * 10 ^ 6) + digitsVal F * 10 ^ 6 := by ring
        _ = digitsVal I * (10 ^ F.length * 10 ^ 6)
              + digitsVal F * (10 ^ F.length * 10 ^ (6 - F.length)) := by rw [hpow]
        _ = 10 ^ F.length * (digitsVal I * 10 ^ 6 + digitsVal F * 10 ^ (6 - F.length)) := by
              ring
    rw [key, Nat.mul_div_cancel_left _ (by positivity)]
  · push_neg at hf
    have h0 : 6 - F.length = 0 := by omega
    rw [h0, List.replicate_zero, List.append_nil]
    have hsplit : digitsVal F
        = digitsVal (F.take 6) * 10 ^ (F.length - 6) + digitsVal (F.drop 6) := by
      conv_lhs => rw [← List.take_append_drop 6 F]
      rw [digitsVal_append, List.length_drop]
    have hD : digitsVal (F.drop 6) < 10 ^ (F.length - 6) := by
      have := digitsVal_lt (F.drop 6) fun d hd => hF d (List.mem_of_mem_drop hd)
      rwa [List.length_drop] at this
    have hpow : 10 ^ (F.length - 6) * 10 ^ 6 = 10 ^ F.length := by
      rw [← pow_add]
      congr 1
      omega
    have key : (digitsVal I * 10 ^ F.length + digitsVal F) * 10 ^ 6
        = 10 ^ F.length * (digitsVal I * 10 ^ 6 + digitsVal (F.take 6))
            + digitsVal (F.drop 6) * 10 ^ 6 := by
      rw [hsplit]
      calc (digitsVal I * 10 ^ F.length
              + (digitsVal (F.take 6) * 10 ^ (F.length - 6) + digitsVal (F.drop 6))) * 10 ^ 6
          = digitsVal I * 10 ^ F.length * 10 ^ 6
              + digitsVal (F.take 6) * (10 ^ (F.length - 6) * 10 ^ 6)
              + digitsVal (F.drop 6) * 10 ^ 6 := by ring
        _ = digitsVal I * 10 ^ F.length * 10 ^ 6
              + digitsVal (F.take 6) * 10 ^ F.length
              + digitsVal (F.drop 6) * 10 ^ 6 := by rw [hpow]
        _ = 10 ^ F.length * (digitsVal I * 10 ^ 6 + digitsVal (F.take 6))
              + digitsVal (F.drop 6) * 10 ^ 6 := by ring
    have hrem : digitsVal (F.drop 6) * 10 ^ 6 < 10 ^ F.length := by
      calc digitsVal (F.drop 6) * 10 ^ 6 < 10 ^ (F.length - 6) * 10 ^ 6 :=
            mul_lt_mul_of_pos_right hD (by positivity)
        _ = 10 ^ F.length := hpow
    rw [key, Nat.mul_add_div (by positivity), Nat.div_eq_of_lt hrem, Nat.add_zero]

/-- `priceToMicroUnits` on an `int.frac` digit string, reduced to the two
`BigInt` conversions. -/
theorem priceToMicroUnits_parts (I F : List Nat)
    (hI : ∀ d ∈ I, d < 10) (hF : ∀ d ∈ F, d < 10) :
    priceToMicroUnits ⟨I.map digitChar ++ '.' :: F.map digitChar⟩
      = some (((digitsVal I : Nat) : Int) * 1000000
          + ((digitsVal ((F ++ List.replicate (6 - F.length) 0).take 6) : Nat) : Int)) := by
  have hG : ∀ d ∈ (F ++ List.replicate (6 - F.length) 0).take 6, d < 10 := by
    intro d hd
    rcases List.mem_append.mp (List.mem_of_mem_take hd) with h | h
    · exact hF d h
    · rw [List.eq_of_mem_replicate h]
      norm_num
  have hfrac : (F.map digitChar ++ List.replicate (6 - F.length) '0').take 6
      = ((F ++ List.replicate (6 - F.length) 0).take 6).map digitChar := by
    rw [List.map_take, List.map_append, List.map_replicate]
    rfl
  simp only [priceToMicroUnits, mk_data]
  rw [splitOnChar_mid '.' (F.map digitChar) (digitChar_map_no_dot F hF)
      (I.map digitChar) (digitChar_map_no_dot I hI)]
  simp only [List.headI, List.drop_one, List.tail_cons, mk_data, List.length_map]
  rw [hfrac, bigIntOfString_digits I hI, bigIntOfString_digits _ hG]
  rfl

/-- The padded fractional part of a dot-free price string is `"000000"`,
which `BigInt` converts to `0`. -/
theorem bigIntOfString_pad_empty :
    bigIntOfString ⟨List.take 6 ((default : List Char)
        ++ List.replicate (6 - (default : List Char).length) '0')⟩ = some 0 := rfl

/-- C8: `priceToMicroUnits` converts with integer arithmetic only and is
exact: on every digit string `I.F` it returns the floor of
`value(I ++ F) * 10^6 / 10^|F|` (exact division whenever `|F| ≤ 6`), on a
dot-free digit string it returns `value(I) * 10^6`, and the two worked
examples hold. -/
theorem C8_priceToMicroUnits (I F : List Nat)
    (hI : ∀ d ∈ I, d < 10) (hF : ∀ d ∈ F, d < 10) :
    priceToMicroUnits ⟨I.map digitChar ++ '.' :: F.map digitChar⟩
        = some (((digitsVal (I ++ F) * 1000000 / 10 ^ F.length : Nat) : Int))
    ∧ priceToMicroUnits ⟨I.map digitChar⟩ = some (((digitsVal I * 1000000 : Nat) : Int))
    ∧ priceToMicroUnits "1.5" = some 1500000
    ∧ priceToMicroUnits "0.001" = some 1000 := by
  refine ⟨?_, ?_, rfl, rfl⟩
  · rw [priceToMicroUnits_parts I F hI hF]
    congr 1
    have h := digitsVal_price_formula I F hF
    have e : (10 : Nat) ^ 6 = 1000000 := rfl
    simp only [e] at h
    rw [← h]
    push_cast
    ring
  · simp only [priceToMicroUnits, mk_data]
    rw [splitOnChar_no_sep '.' (I.map digitChar) (digitChar_map_no_dot I hI)]
    simp only [List.headI, List.drop_one, List.tail_cons, mk_data]
    rw [bigIntOfString_digits I hI, bigIntOfString_pad_empty]
    simp only [Option.some_bind, Option.map_some']
    push_cast
    ring_nf

/-- Witness for C8 at concrete inputs. -/
theorem C8_priceToMicroUnits_witness :
    priceToMicroUnits "1.5" = some 1500000 ∧ priceToMicroUnits "0.001" = some 1000 :=
  ⟨(C8_priceToMicroUnits [1] [5] (by decide) (by decide)).2.2.1,
   (C8_priceToMicroUnits [] [0, 0, 1] (by decide) (by decide)).2.2.2⟩

/-! ## C7: the canonical query sort -/

/-- `lexCmp` is antisymmetric. -/
theorem lexCmp_neg (x : List Nat) : ∀ y, lexCmp y x = -lexCmp x y := by
  induction x with
  | nil => intro y; cases y <;> rfl
  | cons a as ih =>
      intro y
      cases y with
      | nil => rfl
      | cons b bs =>
          simp only [lexCmp]
          rcases Nat.lt_trichotomy a b with h | h | h
          · simp [h, (show ¬ b < a by omega)]
          · subst h
            simp [ih bs]
          · simp [h, (show ¬ a < b by omega)]

/-- `lexCmp` vanishes exactly on equal lists. -/
theorem lexCmp_eq_zero_iff (x : List Nat) : ∀ y, lexCmp x y = 0 ↔ x = y := by
  induction x with
  | nil => intro y; cases y <;> simp [lexCmp]
  | cons a as ih =>
      intro y
      cases y with
      | nil => simp [lexCmp]
      | cons b bs =>
          rcases Nat.lt_trichotomy a b with h | h | h
          · simp [lexCmp, h, (show ¬ b < a by omega), (show a ≠ b by omega)]
          · subst h
            simp [lexCmp, ih bs]
          · simp [lexCmp, h, (show ¬ a < b by omega), (show a ≠ b by omega)]

/-- Strict `lexCmp` order is transitive. -/
theorem lexCmp_trans_lt (x : List Nat) :
    ∀ y z, lexCmp x y < 0 → lexCmp y z < 0 → lexCmp x z < 0 := by
  induction x with
  | nil =>
      intro y z hxy hyz
      cases y with
      | nil => simp [lexCmp] at hxy
      | cons b bs =>
          cases z with
          | nil => norm_num [lexCmp] at hyz
          | cons c cs => norm_num [lexCmp]
  | cons a as ih =>
      intro y z hxy hyz
      cases y with
      | nil => norm_num [lexCmp] at hxy
      | cons b bs =>
          cases z with
          | nil => norm_num [lexCmp] at hyz
          | cons c cs =>
              simp only [lexCmp] at hxy hyz ⊢
              rcases Nat.lt_trichotomy a b with hab | hab | hab
              · rcases Nat.lt_trichotomy b c with hbc | hbc | hbc
                · rw [if_pos (show a < c by omega)]
                  norm_num
                · subst hbc
                  rw [if_pos hab]
                  norm_num
                · rw [if_neg (show ¬ b < c by omega), if_pos hbc] at hyz
                  norm_num at hyz
              · subst hab
                rw [if_neg (by omega), if_neg (by omega)] at hxy
                rcases Nat.lt_trichotomy a c with hac | hac | hac
                · rw [if_pos hac]
                  norm_num
                · subst hac
                  rw [if_neg (by omega), if_neg (by omega)] at hyz ⊢
                  exact ih bs cs hxy hyz
                · rw [if_neg (show ¬ a < c by omega), if_pos hac] at hyz
                  norm_num at hyz
              · rw [if_neg (show ¬ a < b by omega), if_pos hab] at hxy
                norm_num at hxy

/-- Non-strict `lexCmp` order is transitive. -/
theorem lexCmp_trans_le (x y z : List Nat) (hxy : lexCmp x y ≤ 0) (hyz : lexCmp y z ≤ 0) :
    lexCmp x z ≤ 0 := by
  rcases lt_or_eq_of_le hxy with h | h
  · rcases lt_or_eq_of_le hyz with h' | h'
    · exact le_of_lt (lexCmp_trans_lt x y z h h')
    · have hEq : y = z := (lexCmp_eq_zero_iff y z).mp h'
      subst hEq
      exact hxy
  · have hEq : x = y := (lexCmp_eq_zero_iff x y).mp h
    subst hEq
    exact hyz

/-- `localeCompare` is antisymmetric. -/
theorem localeCompare_neg (a b : String) : localeCompare b a = -localeCompare a b := by
  simp only [localeCompare]
  rw [lexCmp_neg (a.data.map primaryWeight) (b.data.map primaryWeight),
      lexCmp_neg (a.data.map tertiaryWeight) (b.data.map tertiaryWeight)]
  by_cases hp : lexCmp (a.data.map primaryWeight) (b.data.map primaryWeight) = 0
  · simp [hp]
  · rw [if_pos (show -lexCmp (a.data.map primaryWeight) (b.data.map primaryWeight) ≠ 0 by
        omega), if_pos hp]

/-- The comparator's non-strict order is transitive. -/
theorem localeCompare_le_trans (a b c : String)
    (hab : localeCompare a b ≤ 0) (hbc : localeCompare b c ≤ 0) :
    localeCompare a c ≤ 0 := by
  simp only [localeCompare] at hab hbc ⊢
  by_cases h1 : lexCmp (a.data.map primaryWeight) (b.data.map primaryWeight) = 0
  · have e1 : a.data.map primaryWeight = b.data.map primaryWeight :=
      (lexCmp_eq_zero_iff _ _).mp h1
    rw [if_neg (by simp [h1])] at hab
    by_cases h2 : lexCmp (b.data.map primaryWeight) (c.data.map primaryWeight) = 0
    · have e2 : b.data.map primaryWeight = c.data.map primaryWeight :=
        (lexCmp_eq_zero_iff _ _).mp h2
      rw [if_neg (by simp [h2])] at hbc
      have h3 : lexCmp (a.data.map primaryWeight) (c.data.map primaryWeight) = 0 :=
        (lexCmp_eq_zero_iff _ _).mpr (e1.trans e2)
      rw [if_neg (by simp [h3])]
      exact lexCmp_trans_le _ _ _ hab hbc
    · rw [if_pos h2] at hbc
      rw [e1, if_pos h2]
      exact hbc
  · rw [if_pos h1] at hab
    by_cases h2 : lexCmp (b.data.map primaryWeight) (c.data.map primaryWeight) = 0
    · have e2 : b.data.map primaryWeight = c.data.map primaryWeight :=
        (lexCmp_eq_zero_iff _ _).mp h2
      rw [← e2, if_pos h1]
      exact hab
    · rw [if_pos h2] at hbc
      have hlt : lexCmp (a.data.map primaryWeight) (c.data.map primaryWeight) < 0 :=
        lexCmp_trans_lt (a.data.map primaryWeight) (b.data.map primaryWeight)
          (c.data.map primaryWeight) (by omega) (by omega)
      rw [if_pos (show lexCmp (a.data.map primaryWeight) (c.data.map primaryWeight) ≠ 0 by
        omega)]
      omega

/-- The comparator is total. -/
theorem localeCompare_total (a b : String) :
    localeCompare a b ≤ 0 ∨ localeCompare b a ≤ 0 := by
  rcases le_or_lt (localeCompare a b) 0 with h | h
  · exact Or.inl h
  · right
    rw [localeCompare_neg a b]
    omega

/-- Insertion permutes the new pair into the list. -/
theorem insertPair_perm (x : String × String) (l : List (String × String)) :
    (insertPair localeCompare x l).Perm (x :: l) := by
  induction l with
  | nil => exact List.Perm.refl _
  | cons y ys ih =>
      simp only [insertPair]
      by_cases h : localeCompare y.1 x.1 ≤ 0
      · rw [if_pos h]
        exact (List.Perm.cons y ih).trans (List.Perm.swap x y ys)
      · rw [if_neg h]

/-- Insertion preserves pairwise sortedness under the comparator. -/
theorem insertPair_pairwise (x : String × String) (l : List (String × String))
    (hl : l.Pairwise fun u v => localeCompare u.1 v.1 ≤ 0) :
    (insertPair localeCompare x l).Pairwise fun u v => localeCompare u.1 v.1 ≤ 0 := by
  induction l with
  | nil => simp [insertPair]
  | cons y ys ih =>
      rcases List.pairwise_cons.mp hl with ⟨hy, hys⟩
      simp only [insertPair]
      by_cases h : localeCompare y.1 x.1 ≤ 0
      · rw [if_pos h]
        refine List.pairwise_cons.mpr ⟨?_, ih hys⟩
        intro z hz
        rcases List.mem_cons.mp ((insertPair_perm x ys).mem_iff.mp hz) with rfl | hz'
        · exact h
        · exact hy z hz'
      · rw [if_neg h]
        have hxy : localeCompare x.1 y.1 ≤ 0 := by
          rw [localeCompare_neg y.1 x.1]
          omega
        refine List.pairwise_cons.mpr ⟨?_, hl⟩
        intro z hz
        rcases List.mem_cons.mp hz with rfl | hz'
        · exact hxy
        · exact localeCompare_le_trans x.1 y.1 z.1 hxy (hy z hz')

/-- The insertion-sort fold permutes its input. -/
theorem sortPairs_foldl_perm (l : List (String × String)) :
    ∀ acc : List (String × String),
      (l.foldl (fun a x => insertPair localeCompare x a) acc).Perm (acc ++ l) := by
  induction l with
  | nil =>
      intro acc
      simp only [List.foldl_nil, List.append_nil]
      exact List.Perm.refl _
  | cons x xs ih =>
      intro acc
      simp only [List.foldl_cons]
      refine (ih (insertPair localeCompare x acc)).trans ?_
      refine (List.Perm.append_right xs (insertPair_perm x acc)).trans ?_
      exact List.perm_middle.symm

/-- `sortPairs` permutes its input. -/
theorem sortPairs_perm (l : List (String × String)) :
    (sortPairs localeCompare l).Perm l := by
  have h := sortPairs_foldl_perm l []
  simpa [sortPairs] using h

/-- The insertion-sort fold sorts. -/
theorem sortPairs_foldl_pairwise (l : List (String × String)) :
    ∀ acc, (acc.Pairwise fun u v => localeCompare u.1 v.1 ≤ 0) →
      ((l.foldl (fun a x => insertPair localeCompare x a) acc).Pairwise
        fun u v => localeCompare u.1 v.1 ≤ 0) := by
  induction l with
  | nil => intro acc h; simpa using h
  | cons x xs ih =>
      intro acc h
      simp only [List.foldl_cons]
      exact ih _ (insertPair_pairwise x acc h)

/-- `sortPairs` output is pairwise nondecreasing under the comparator. -/
theorem sortPairs_pairwise (l : List (String × String)) :
    (sortPairs localeCompare l).Pairwise fun u v => localeCompare u.1 v.1 ≤ 0 :=
  sortPairs_foldl_pairwise l [] List.Pairwise.nil

/-- A scalar value is below 0x110000. -/
theorem char_toNat_lt (c : Char) : c.toNat < 1114112 := by
  have h := c.valid
  simp only [UInt32.isValidChar, Nat.isValidChar] at h
  rcases h with h | h
  · exact lt_trans h (by norm_num)
  · exact h.2

/-- Merging bytes below 256 stays below 256. -/
theorem or_lt_256 (x y : Nat) (hx : x < 256) (hy : y < 256) : x ||| y < 256 := by
  have e : (2 : Nat) ^ 8 = 256 := by norm_num
  rw [← e] at hx hy ⊢
  exact Nat.or_lt_two_pow hx hy

/-- Bound for a right shift. -/
theorem shiftRight_lt (x k m : Nat) (h : x < m * 2 ^ k) : x >>> k < m := by
  rw [Nat.shiftRight_eq_div_pow]
  exact (Nat.div_lt_iff_lt_mul (by positivity)).mpr h

/-- UTF-8 bytes are below 256. -/
theorem utf8Char_lt_256 (c : Char) : ∀ b ∈ utf8Char c, b < 256 := by
  intro b hb
  have hv := char_toNat_lt c
  simp only [utf8Char] at hb
  split_ifs at hb with h1 h2 h3 <;>
    simp only [List.mem_cons, List.not_mem_nil, or_false] at hb
  · subst hb
    omega
  · rcases hb with rfl | rfl
    · exact or_lt_256 _ _ (by norm_num) (shiftRight_lt _ 6 256 (by norm_num; omega))
    · exact or_lt_256 _ _ (by norm_num) (lt_of_le_of_lt Nat.and_le_right (by norm_num))
  · rcases hb with rfl | rfl | rfl
    · exact or_lt_256 _ _ (by norm_num) (shiftRight_lt _ 12 256 (by norm_num; omega))
    · exact or_lt_256 _ _ (by norm_num) (lt_of_le_of_lt Nat.and_le_right (by norm_num))
    · exact or_lt_256 _ _ (by norm_num) (lt_of_le_of_lt Nat.and_le_right (by norm_num))
  · rcases hb with rfl | rfl | rfl | rfl
    · exact or_lt_256 _ _ (by norm_num) (shiftRight_lt _ 18 256 (by norm_num; omega))
    · exact or_lt_256 _ _ (by norm_num) (lt_of_le_of_lt Nat.and_le_right (by norm_num))
    · exact or_lt_256 _ _ (by norm_num) (lt_of_le_of_lt Nat.and_le_right (by norm_num))
    · exact or_lt_256 _ _ (by norm_num) (lt_of_le_of_lt Nat.and_le_right (by norm_num))

/-- Uppercase hex digits of values below 16 are never `'+'`. -/
theorem hexDigitUpper_ne_plus : ∀ n < 16, hexDigitUpper n ≠ '+' := by decide

/-- `encodeURIComponent` output never contains a literal `'+'`. -/
theorem encodeURIComponent_no_plus (s : String) :
    ∀ c ∈ (encodeURIComponent s).data, c ≠ '+' := by
  intro c hc
  simp only [encodeURIComponent, mk_data] at hc
  rcases List.mem_flatMap.mp hc with ⟨a, _, ha⟩
  by_cases hu : uriUnreserved a
  · rw [if_pos hu] at ha
    simp only [List.mem_singleton] at ha
    subst ha
    intro hEq
    rw [hEq] at hu
    exact absurd hu (by decide)
  · rw [if_neg hu] at ha
    rcases List.mem_flatMap.mp ha with ⟨bb, hbb, hcb⟩
    have hb256 := utf8Char_lt_256 a bb hbb
    simp only [List.mem_cons, List.not_mem_nil, or_false] at hcb
    rcases hcb with rfl | rfl | rfl
    · decide
    · exact hexDigitUpper_ne_plus _ (by omega)
    · exact hexDigitUpper_ne_plus _ (by omega)

/-- C7 counterexample: the sort is not code-point order. `'B' < 'a'` by
code point, yet `canonicalQueryString` puts key `"a"` first, because
`"a".localeCompare("B")` is negative under root collation. -/
theorem C7_counterexample :
    canonicalQueryString "B=1&a=2" = "a=2&B=1" ∧ 'B' < 'a'
      ∧ localeCompare "a" "B" ≤ 0 :=
  ⟨rfl, by decide, by decide⟩

/-- C7 (amended): `canonicalQueryString` sorts the parsed pairs by the
`localeCompare` comparator (root collation, not code-point order) with a
stable insertion sort — the sorted list is a permutation of the parsed
pairs, pairwise nondecreasing on keys under the comparator — and encodes
each key and value with URI-component encoding, where a space becomes
`%20` and a literal `+` never appears; encoded pairs are joined with `&`. -/
theorem C7_canonicalQueryString (rawQuery : String) (hne : rawQuery ≠ "") :
    canonicalQueryString rawQuery
        = String.intercalate "&" ((sortPairs localeCompare (parseQuery rawQuery)).map
            fun p => encodeURIComponent p.1 ++ "=" ++ encodeURIComponent p.2)
    ∧ (sortPairs localeCompare (parseQuery rawQuery)).Perm (parseQuery rawQuery)
    ∧ (sortPairs localeCompare (parseQuery rawQuery)).Pairwise
        (fun u v => localeCompare u.1 v.1 ≤ 0)
    ∧ encodeURIComponent " " = "%20"
    ∧ (∀ s : String, ∀ c ∈ (encodeURIComponent s).data, c ≠ '+') := by
  refine ⟨?_, sortPairs_perm _, sortPairs_pairwise _, rfl, encodeURIComponent_no_plus⟩
  simp only [canonicalQueryString, if_neg hne]

/-- Witness for C7's amended statement at a concrete query. -/
theorem C7_canonicalQueryString_witness :
    canonicalQueryString "b=2&a=1"
        = String.intercalate "&" ((sortPairs localeCompare (parseQuery "b=2&a=1")).map
            fun p => encodeURIComponent p.1 ++ "=" ++ encodeURIComponent p.2)
    ∧ (sortPairs localeCompare (parseQuery "b=2&a=1")).Pairwise
        (fun u v => localeCompare u.1 v.1 ≤ 0) :=
  ⟨(C7_canonicalQueryString "b=2&a=1" (by decide)).1,
   (C7_canonicalQueryString "b=2&a=1" (by decide)).2.2.1⟩

/-! ## The payment gate (middleware.ts preHandler), the idempotency store
(idempotency.ts) and the client's challenge parsing (fetch.ts) -/

/-- JS truthiness of a decoded JSON value (the model's numbers are
integers, so `NaN` does not arise among decoded values). -/
def jsTruthy : Json → Bool
  | .null => false
  | .bool b => b
  | .num n => n ≠ 0
  | .str s => s ≠ ""
  | .arr _ => true
  | .obj _ => true

/-- A stored idempotent response (types.ts `StoredResponse`). -/
structure StoredResponse where
  requestHash : String
  statusCode : Nat
  body : Json
  headers : List (String × String)

/-- One entry of `MemoryIdempotencyStore` (idempotency.ts): the stored
response plus its expiry epoch. -/
structure IdemEntry where
  value : StoredResponse
  expiresAt : Int

/-- `MemoryIdempotencyStore.get`: `undefined` on a missing key; an
expired entry (`now > expiresAt`) is deleted and `undefined` returned.
Returns the result together with the updated map. -/
def idemGet (nowMs : Int) (store : List (String × IdemEntry)) (key : String) :
    Option StoredResponse × List (String × IdemEntry) :=
  match store.find? (fun e => e.1 == key) with
  | none => (none, store)
  | some e =>
      if nowMs > e.2.expiresAt then (none, store.filter fun e2 => !(e2.1 == key))
      else (some e.2.value, store)

/-- JS `Map.set` with string keys: update in place or append. -/
def mapSetStr (store : List (String × IdemEntry)) (key : String) (v : IdemEntry) :
    List (String × IdemEntry) :=
  if store.any (fun e => e.1 == key) then
    store.map fun e => if e.1 == key then (key, v) else e
  else store ++ [(key, v)]

/-- `MemoryIdempotencyStore.set`: store under `now + ttlMs` expiry. -/
def idemSet (nowMs ttlMs : Int) (store : List (String × IdemEntry)) (key : String)
    (v : StoredResponse) : List (String × IdemEntry) :=
  mapSetStr store key ⟨v, nowMs + ttlMs⟩

/-- `usedNonces.has`: the nonce registry is a JS `Map` keyed by the
decoded (arbitrary) nonce value under SameValueZero. -/
def noncesHas (m : List (Json × Option Int)) (k : Json) : Bool :=
  m.any fun e => jsSameValueZero e.1 k

/-- `usedNonces.set` (`none` expiry models `NaN`). -/
def noncesSet (m : List (Json × Option Int)) (k : Json) (v : Option Int) :
    List (Json × Option Int) :=
  if m.any (fun e => jsSameValueZero e.1 k) then
    m.map fun e => if jsSameValueZero e.1 k then (k, v) else e
  else m ++ [(k, v)]

/-- The request as seen by the gate hook. -/
structure GateRequest where
  method : String
  pathname : String
  rawQuery : String
  rawBody : List Nat
  idempotencyKey : Option String
  proofHeader : Option String

/-- A reply: status, JSON body, extra headers. -/
structure GateReply where
  status : Nat
  body : Json
  headers : List (String × String)

/-- Mutable plugin state: the nonce registry and the idempotency store. -/
structure GateState where
  usedNonces : List (Json × Option Int)
  idem : List (String × IdemEntry)

/-- What the preHandler hook decides: short-circuit with a reply (the
route handler does not run), or pass through (the handler runs), with
the idempotency send-wrap installed or not. -/
inductive GateOutcome where
  | reply (r : GateReply)
  | pass (wrap : Bool)

/-- Truthiness of an optional header string (`undefined` and `""` are
falsy in the `if (idempotencyKey)` checks). -/
def strTruthy : Option String → Bool
  | some s => s ≠ ""
  | none => false

/-- The challenge object the gate emits (middleware.ts, challenge
issuance): object-literal member order; an `undefined` description is
dropped by `JSON.stringify`. -/
def challengeJson (pricing : PricingConfig) (nonce expiresAt requestHash : String) : Json :=
  .obj ([("version", .num 1),
         ("scheme", .str (pricing.scheme.getD "exact")),
         ("price", .str pricing.price),
         ("asset", .str pricing.asset),
         ("network", .str (pricing.network.getD "mock")),
         ("recipient", .str pricing.recipient),
         ("nonce", .str nonce),
         ("expiresAt", .str expiresAt),
         ("requestHash", .str requestHash)]
    ++ match pricing.description with
       | some d => [("description", .str d)]
       | none => [])

/-- The proof phase of the preHandler (middleware.ts after the
idempotency check): challenge issuance on a missing header, 402 on a
failed verification, then nonce replay tracking; a decode failure or a
primitive/`null` decode (property access throws or yields `undefined`)
is caught and the request passes with no nonce recorded. Only the nonce
registry is touched; it is threaded explicitly. -/
def gateProof (verify : String → String → Bool) (defaultTtl nowMs : Int)
    (freshNonce : String) (pricing : PricingConfig) (req : GateRequest)
    (requestHash : String) (usedNonces : List (Json × Option Int)) :
    GateOutcome × List (Json × Option Int) :=
  let wrap := strTruthy req.idempotencyKey
  match req.proofHeader with
  | none =>
      let ttl := pricing.ttlSeconds.getD defaultTtl
      let expiresAt := isoOfMs (nowMs + ttl * 1000)
      (.reply ⟨402, .obj [("x402", challengeJson pricing freshNonce expiresAt requestHash)],
        []⟩, usedNonces)
  | some ph =>
      if verify ph requestHash then
        match headerJson ph with
        | none => (.pass wrap, usedNonces)
        | some j =>
            match jsGet j "nonce" with
            | none => (.pass wrap, usedNonces)
            | some nv =>
                if jsTruthy nv then
                  if noncesHas usedNonces nv then
                    (.reply ⟨402, .obj [("error",
                      .str "Nonce already used (replay detected)")], []⟩, usedNonces)
                  else
                    let expMs : Option Int :=
                      match jsGet j "expiresAt" with
                      | some ev =>
                          if jsTruthy ev then (dateValueOf (some ev)).map (· + 60000)
                          else some (nowMs + 360000)
                      | none => some (nowMs + 360000)
                    (.pass wrap, noncesSet usedNonces nv expMs)
                else (.pass wrap, usedNonces)
      else
        (.reply ⟨402, .obj [("error", .str "Invalid or expired payment proof"),
          ("hint", .str
            "Obtain a fresh challenge by calling this endpoint without X-Payment-Proof")],
          []⟩, usedNonces)

/-- The preHandler hook (middleware.ts): pricing check, request hash,
idempotency replay/conflict (which precedes the proof check), then the
proof phase. -/
def gateStep (verify : String → String → Bool) (defaultTtl nowMs : Int)
    (freshNonce : String) (pricing : Option PricingConfig) (req : GateRequest)
    (st : GateState) : GateOutcome × GateState :=
  match pricing with
  | none => (.pass false, st)
  | some pricing =>
      let requestHash := computeRequestHash req.method req.pathname req.rawQuery req.rawBody
      if strTruthy req.idempotencyKey then
        let key := req.idempotencyKey.getD ""
        let g := idemGet nowMs st.idem key
        match g.1 with
        | some stored =>
            if stored.requestHash == requestHash then
              (.reply ⟨stored.statusCode, stored.body,
                stored.headers ++ [("x-idempotent-replay", "true")]⟩,
               ⟨st.usedNonces, g.2⟩)
            else
              (.reply ⟨409, .obj [("error",
                .str "Idempotency key reused with a different request"),
                ("idempotencyKey", .str key)], []⟩,
               ⟨st.usedNonces, g.2⟩)
        | none =>
            let pr := gateProof verify defaultTtl nowMs freshNonce pricing req requestHash
              st.usedNonces
            (pr.1, ⟨pr.2, g.2⟩)
      else
        let pr := gateProof verify defaultTtl nowMs freshNonce pricing req requestHash
          st.usedNonces
        (pr.1, ⟨pr.2, st.idem⟩)

/-- One full round: run the gate; when it passes, the handler replies
`handler` and, when the send-wrap was installed, the wrapped `send`
stores the response under the idempotency key with empty stored headers
(middleware.ts, response interception). Returns the final reply, whether
the handler ran, and the final state. -/
def gateRound (verify : String → String → Bool) (defaultTtl idemTtlMs nowMs : Int)
    (freshNonce : String) (pricing : Option PricingConfig) (req : GateRequest)
    (handler : GateReply) (st : GateState) : GateReply × Bool × GateState :=
  let g := gateStep verify defaultTtl nowMs freshNonce pricing req st
  match g.1 with
  | .reply r => (r, false, g.2)
  | .pass wrap =>
      if wrap then
        (handler, true,
         ⟨g.2.usedNonces, idemSet nowMs idemTtlMs g.2.idem (req.idempotencyKey.getD "")
           ⟨computeRequestHash req.method req.pathname req.rawQuery req.rawBody,
            handler.status, handler.body, []⟩⟩)
      else (handler, true, g.2)

/-- `parseChallengeBody` (fetch.ts): the parsed 402 body is an x402
challenge body exactly when it is a non-null object whose `x402` member
exists with `typeof === 'object'` (objects, arrays and `null`); `none`
(the caller returns the 402 unchanged) otherwise, and also when reading
or parsing the body threw. -/
def parseChallengeBody (body : Option Json) : Option Json :=
  match body with
  | some (.obj ms) =>
      match jsonLookup ms "x402" with
      | some (.obj _) => some (.obj ms)
      | some (.arr _) => some (.obj ms)
      | some .null => some (.obj ms)
      | _ => none
  | _ => none

/-! ### Helper lemmas for the gate theorems -/

/-- After inserting a string-keyed nonce the registry reports it used. -/
theorem noncesHas_set_str (m : List (Json × Option Int)) (s : String) (v : Option Int) :
    noncesHas (noncesSet m (.str s) v) (.str s) = true := by
  have hself : jsSameValueZero (.str s) (.str s) = true := by simp [jsSameValueZero]
  simp only [noncesHas, noncesSet]
  by_cases h : m.any fun e => jsSameValueZero e.1 (.str s)
  · rw [if_pos h]
    rcases List.any_eq_true.mp h with ⟨e, he, hpe⟩
    refine List.any_eq_true.mpr ⟨(Json.str s, v), List.mem_map.mpr ⟨e, he, ?_⟩, hself⟩
    simp [hpe]
  · rw [if_neg h]
    refine List.any_eq_true.mpr ⟨(Json.str s, v), ?_, hself⟩
    simp

/-- The gate on an idempotency-store miss: the idempotency branch is
transparent and the proof phase decides. -/
theorem gateStep_idem_miss (verify : String → String → Bool) (defaultTtl nowMs : Int)
    (freshNonce : String) (pricing : PricingConfig) (req : GateRequest) (st : GateState)
    (key : String)
    (hkey : req.idempotencyKey = some key) (hkne : key ≠ "")
    (hmiss : st.idem.find? (fun e => e.1 == key) = none) :
    gateStep verify defaultTtl nowMs freshNonce (some pricing) req st
      = ((gateProof verify defaultTtl nowMs freshNonce pricing req
            (computeRequestHash req.method req.pathname req.rawQuery req.rawBody)
            st.usedNonces).1,
         ⟨(gateProof verify defaultTtl nowMs freshNonce pricing req
            (computeRequestHash req.method req.pathname req.rawQuery req.rawBody)
            st.usedNonces).2, st.idem⟩) := by
  have htr : strTruthy req.idempotencyKey = true := by
    rw [hkey]
    simp [strTruthy, hkne]
  simp only [gateStep, htr, if_true, hkey, Option.getD_some, idemGet, hmiss]
  split <;> rfl

/-- The gate with no idempotency key: the proof phase decides. -/
theorem gateStep_no_key (verify : String → String → Bool) (defaultTtl nowMs : Int)
    (freshNonce : String) (pricing : PricingConfig) (req : GateRequest) (st : GateState)
    (hnokey : req.idempotencyKey = none) :
    gateStep verify defaultTtl nowMs freshNonce (some pricing) req st
      = ((gateProof verify defaultTtl nowMs freshNonce pricing req
            (computeRequestHash req.method req.pathname req.rawQuery req.rawBody)
            st.usedNonces).1,
         ⟨(gateProof verify defaultTtl nowMs freshNonce pricing req
            (computeRequestHash req.method req.pathname req.rawQuery req.rawBody)
            st.usedNonces).2, st.idem⟩) := by
  have htr : strTruthy req.idempotencyKey = false := by rw [hnokey]; rfl
  simp only [gateStep, htr, Bool.false_eq_true, if_false]


/-- Concrete pricing used by the gate scenarios. -/
def gatePricing : PricingConfig :=
  ⟨"0.001", "USDC", none, "mock://recipient", none, none, none⟩

/-- A priced request with no payment proof and no idempotency key. -/
def gateReqNoProof : GateRequest := ⟨"GET", "/weather", "city=London", [], none, none⟩

/-- The challenge body the gate emits in the concrete scenario. -/
def gateChallengeBody : Json :=
  .obj [("x402", challengeJson gatePricing "N-fresh" "2025-10-11T00:05:00.000Z"
      (computeRequestHash "GET" "/weather" "city=London" []))]

/-- C6 counterexample: on a proofless request the gate's 402 body wraps
the challenge under the top-level key `x402` — there is no `challenge`
member to parse. -/
theorem C6_counterexample :
    (gateStep (fun _ _ => true) 300 1760140800000 "N-fresh" (some gatePricing)
        gateReqNoProof ⟨[], []⟩).1 = .reply ⟨402, gateChallengeBody, []⟩
    ∧ jsGet gateChallengeBody "challenge" = none
    ∧ jsGet gateChallengeBody "x402"
        = some (challengeJson gatePricing "N-fresh" "2025-10-11T00:05:00.000Z"
            (computeRequestHash "GET" "/weather" "city=London" []))
    ∧ jsGet (challengeJson gatePricing "N-fresh" "2025-10-11T00:05:00.000Z"
        (computeRequestHash "GET" "/weather" "city=London" [])) "version" = some (.num 1) :=
  ⟨rfl, rfl, rfl, rfl⟩

/-- C6 (amended): with no `X-Payment-Proof` header on a priced route and
no idempotency key, the gate replies 402 with a body that wraps the
challenge under the TOP-LEVEL KEY `x402` (state unchanged); such a body
has no `challenge` member; the client's `parseChallengeBody` recognizes
exactly bodies whose `x402` member has object typeof, and yields `none`
(the 402 is returned unchanged) for an unparseable body, an object
without the member, or a primitive body. -/
theorem C6_challenge_wrapper (verify : String → String → Bool) (defaultTtl nowMs : Int)
    (freshNonce : String) (pricing : PricingConfig) (req : GateRequest) (st : GateState)
    (hnoproof : req.proofHeader = none) (hnokey : req.idempotencyKey = none) :
    gateStep verify defaultTtl nowMs freshNonce (some pricing) req st
        = (.reply ⟨402, .obj [("x402", challengeJson pricing freshNonce
            (isoOfMs (nowMs + (pricing.ttlSeconds.getD defaultTtl) * 1000))
            (computeRequestHash req.method req.pathname req.rawQuery req.rawBody))], []⟩,
           st)
    ∧ (∀ v : Json, jsGet (.obj [("x402", v)]) "challenge" = none
        ∧ jsGet (.obj [("x402", v)]) "x402" = some v)
    ∧ (∀ nonce expiresAt requestHash,
        parseChallengeBody (some (.obj [("x402",
            challengeJson pricing nonce expiresAt requestHash)]))
          = some (.obj [("x402", challengeJson pricing nonce expiresAt requestHash)]))
    ∧ parseChallengeBody none = none
    ∧ (∀ ms, jsonLookup ms "x402" = none → parseChallengeBody (some (.obj ms)) = none)
    ∧ (∀ n : Int, parseChallengeBody (some (.num n)) = none) := by
  refine ⟨?_, fun v => ⟨rfl, rfl⟩, fun nonce expiresAt requestHash => rfl, rfl, ?_, fun n => rfl⟩
  · rw [gateStep_no_key verify defaultTtl nowMs freshNonce pricing req st hnokey]
    simp only [gateProof, hnoproof]
  · intro ms h
    simp [parseChallengeBody, h]

/-- Witness for C6's amended statement at concrete inputs. -/
theorem C6_challenge_wrapper_witness :
    gateStep (fun _ _ => true) 300 1760140800000 "N-fresh" (some gatePricing)
        gateReqNoProof ⟨[], []⟩
      = (.reply ⟨402, .obj [("x402", challengeJson gatePricing "N-fresh"
          (isoOfMs (1760140800000 + (gatePricing.ttlSeconds.getD 300) * 1000))
          (computeRequestHash "GET" "/weather" "city=London" []))], []⟩,
         (⟨[], []⟩ : GateState))
    ∧ parseChallengeBody none = none :=
  ⟨(C6_challenge_wrapper (fun _ _ => true) 300 1760140800000 "N-fresh" gatePricing
      gateReqNoProof ⟨[], []⟩ rfl rfl).1,
   (C6_challenge_wrapper (fun _ _ => true) 300 1760140800000 "N-fresh" gatePricing
      gateReqNoProof ⟨[], []⟩ rfl rfl).2.2.2.1⟩

/-- C10: a verifier-accepted proof whose decode fails, or whose decoded
JSON has no `nonce` member, passes the gate with the state unchanged —
nothing is inserted into the nonce registry — so iterating the gate on
the same header any number of times leaves the state fixed and keeps
passing: replay protection covers only proofs whose decoded JSON carries
a nonce. -/
theorem C10_no_nonce_bypass (verify : String → String → Bool) (defaultTtl nowMs : Int)
    (freshNonce : String) (pricing : PricingConfig) (req : GateRequest) (st : GateState)
    (ph : String)
    (hph : req.proofHeader = some ph)
    (hnokey : req.idempotencyKey = none)
    (hv : verify ph (computeRequestHash req.method req.pathname req.rawQuery req.rawBody)
      = true)
    (hnonce : headerJson ph = none
      ∨ ∃ j, headerJson ph = some j ∧ jsGet j "nonce" = none) :
    gateStep verify defaultTtl nowMs freshNonce (some pricing) req st = (.pass false, st)
    ∧ ∀ n : Nat,
        (fun s => (gateStep verify defaultTtl nowMs freshNonce (some pricing) req s).2)^[n] st
          = st := by
  have htrf : strTruthy req.idempotencyKey = false := by rw [hnokey]; rfl
  have h1 : ∀ s : GateState,
      gateStep verify defaultTtl nowMs freshNonce (some pricing) req s = (.pass false, s) := by
    intro s
    rw [gateStep_no_key verify defaultTtl nowMs freshNonce pricing req s hnokey]
    rcases hnonce with hd | ⟨j, hj, hn⟩
    · simp only [gateProof, hph, hv, if_true, hd, htrf]
    · simp only [gateProof, hph, hv, if_true, hj, hn, htrf]
  refine ⟨h1 st, fun n => Function.iterate_fixed ?_ n⟩
  show (gateStep verify defaultTtl nowMs freshNonce (some pricing) req st).2 = st
  rw [h1 st]

/-- A header that decodes to an object with no nonce member. -/
def c10Header : String := "e30"

/-- Witness for C10 at concrete inputs: the nonce-less proof header
passes three times in a row with the registry untouched. -/
theorem C10_no_nonce_bypass_witness :
    gateStep (fun _ _ => true) 300 1760140800000 "F1" (some gatePricing)
        (⟨"GET", "/weather", "city=London", [], none, some c10Header⟩ : GateRequest)
        ⟨[], []⟩
      = (.pass false, (⟨[], []⟩ : GateState))
    ∧ (fun s => (gateStep (fun _ _ => true) 300 1760140800000 "F1" (some gatePricing)
        (⟨"GET", "/weather", "city=London", [], none, some c10Header⟩ : GateRequest) s).2)^[3]
        (⟨[], []⟩ : GateState)
      = ⟨[], []⟩ :=
  ⟨(C10_no_nonce_bypass (fun _ _ => true) 300 1760140800000 "F1" gatePricing
      ⟨"GET", "/weather", "city=London", [], none, some c10Header⟩ ⟨[], []⟩ c10Header
      rfl rfl rfl (Or.inr ⟨.obj [], rfl, rfl⟩)).1,
   (C10_no_nonce_bypass (fun _ _ => true) 300 1760140800000 "F1" gatePricing
      ⟨"GET", "/weather", "city=London", [], none, some c10Header⟩ ⟨[], []⟩ c10Header
      rfl rfl rfl (Or.inr ⟨.obj [], rfl, rfl⟩)).2 3⟩



/-- A proof header decoding to `\x7b"nonce":"N1"\x7d`. -/
def c1Header : String := "eyJub25jZSI6Ik4xIn0"

/-- First call: priced route, idempotency key `K1`, always-accepting
verifier, proof nonce `N1`, empty initial state; the handler replies
200. -/
def c1Round1 : GateReply × Bool × GateState :=
  gateRound (fun _ _ => true) 300 3600000 1760140800000 "F1" (some gatePricing)
    ⟨"GET", "/weather", "city=London", [], some "K1", some c1Header⟩
    ⟨200, .obj [("ok", .bool true)], []⟩ ⟨[], []⟩

/-- Second call, 100 seconds later: the identical request (same proof
header, same nonce `N1`, same idempotency key) against the state the
first call left. -/
def c1Round2 : GateReply × Bool × GateState :=
  gateRound (fun _ _ => true) 300 3600000 1760140900000 "F2" (some gatePricing)
    ⟨"GET", "/weather", "city=London", [], some "K1", some c1Header⟩
    ⟨200, .obj [("ok", .bool true)], []⟩ c1Round1.2.2

/-- C1 counterexample: the idempotency replay precedes the nonce-replay
check, so re-presenting the same verifier-accepted proof — its nonce
`N1` still unexpired in the registry — under the same idempotency key is
answered with the replayed status 200, not 402. -/
theorem C1_counterexample :
    c1Round1.2.1 = true
    ∧ noncesHas c1Round1.2.2.usedNonces (.str "N1") = true
    ∧ c1Round2.1.status = 200
    ∧ c1Round2.1.status ≠ 402
    ∧ c1Round2.2.1 = false
    ∧ c1Round2.1.headers = [("x-idempotent-replay", "true")] :=
  ⟨rfl, rfl, rfl, by decide, rfl, rfl⟩

/-- C1 (amended): for a verifier-accepted proof whose decoded JSON
carries a truthy string nonce, on a request without an idempotency key:
the nonce is inserted into the registry only after verification succeeds
— a failing verification replies 402 with the state unchanged; a fresh
nonce passes the gate and is recorded; a nonce already in the registry
is answered 402 (nonce replay) with the handler not running and the
state unchanged. The registry check is reachable only when the
idempotency replay did not short-circuit first (see
`C1_counterexample`). -/
theorem C1_nonce_replay (verify : String → String → Bool) (defaultTtl nowMs : Int)
    (freshNonce : String) (pricing : PricingConfig) (req : GateRequest) (st : GateState)
    (ph : String) (j : Json) (s : String)
    (hph : req.proofHeader = some ph)
    (hnokey : req.idempotencyKey = none)
    (hdec : headerJson ph = some j)
    (hnv : jsGet j "nonce" = some (.str s))
    (hs : s ≠ "") :
    (verify ph (computeRequestHash req.method req.pathname req.rawQuery req.rawBody)
        = false →
      gateStep verify defaultTtl nowMs freshNonce (some pricing) req st
        = (.reply ⟨402, .obj [("error", .str "Invalid or expired payment proof"),
            ("hint", .str
              "Obtain a fresh challenge by calling this endpoint without X-Payment-Proof")],
            []⟩, st))
    ∧ (verify ph (computeRequestHash req.method req.pathname req.rawQuery req.rawBody)
          = true →
        noncesHas st.usedNonces (.str s) = false →
          (gateStep verify defaultTtl nowMs freshNonce (some pricing) req st).1 = .pass false
          ∧ noncesHas (gateStep verify defaultTtl nowMs freshNonce (some pricing) req
              st).2.usedNonces (.str s) = true)
    ∧ (verify ph (computeRequestHash req.method req.pathname req.rawQuery req.rawBody)
          = true →
        noncesHas st.usedNonces (.str s) = true →
          gateStep verify defaultTtl nowMs freshNonce (some pricing) req st
            = (.reply ⟨402, .obj [("error",
                .str "Nonce already used (replay detected)")], []⟩, st)) := by
  have htr : jsTruthy (.str s) = true := by simp [jsTruthy, hs]
  have hwrap : strTruthy req.idempotencyKey = false := by rw [hnokey]; rfl
  refine ⟨?_, ?_, ?_⟩
  · intro hv
    rw [gateStep_no_key verify defaultTtl nowMs freshNonce pricing req st hnokey]
    simp only [gateProof, hph, hv, Bool.false_eq_true, if_false]
  · intro hv hhas
    rw [gateStep_no_key verify defaultTtl nowMs freshNonce pricing req st hnokey]
    constructor
    · simp only [gateProof, hph, hv, if_true, hdec, hnv, htr, hhas, Bool.false_eq_true,
        if_false, hwrap]
    · simp only [gateProof, hph, hv, if_true, hdec, hnv, htr, hhas, Bool.false_eq_true,
        if_false, hwrap]
      exact noncesHas_set_str st.usedNonces s _
  · intro hv hhas
    rw [gateStep_no_key verify defaultTtl nowMs freshNonce pricing req st hnokey]
    simp only [gateProof, hph, hv, if_true, hdec, hnv, htr, hhas]

/-- Witness for C1's amended statement at concrete inputs. -/
theorem C1_nonce_replay_witness :
    ((gateStep (fun _ _ => true) 300 1760140800000 "F1" (some gatePricing)
        (⟨"GET", "/weather", "city=London", [], none, some c1Header⟩ : GateRequest)
        ⟨[], []⟩).1 = .pass false
      ∧ noncesHas (gateStep (fun _ _ => true) 300 1760140800000 "F1" (some gatePricing)
          (⟨"GET", "/weather", "city=London", [], none, some c1Header⟩ : GateRequest)
          ⟨[], []⟩).2.usedNonces (.str "N1") = true)
    ∧ gateStep (fun _ _ => true) 300 1760140800000 "F1" (some gatePricing)
        (⟨"GET", "/weather", "city=London", [], none, some c1Header⟩ : GateRequest)
        ⟨[(.str "N1", some 0)], []⟩
      = (.reply ⟨402, .obj [("error", .str "Nonce already used (replay detected)")], []⟩,
         ⟨[(.str "N1", some 0)], []⟩) :=
  ⟨(C1_nonce_replay (fun _ _ => true) 300 1760140800000 "F1" gatePricing
      ⟨"GET", "/weather", "city=London", [], none, some c1Header⟩ ⟨[], []⟩
      c1Header (.obj [("nonce", .str "N1")]) "N1" rfl rfl rfl rfl (by decide)).2.1 rfl rfl,
   (C1_nonce_replay (fun _ _ => true) 300 1760140800000 "F1" gatePricing
      ⟨"GET", "/weather", "city=London", [], none, some c1Header⟩ ⟨[(.str "N1", some 0)], []⟩
      c1Header (.obj [("nonce", .str "N1")]) "N1" rfl rfl rfl rfl (by decide)).2.2 rfl rfl⟩

/-- C3: idempotency replay and conflict. First call: the key is missing
from the store and the gate passes (send-wrap installed), so the handler
runs and its response is stored. Second call with the same key while the
entry is unexpired: with an equal request hash the stored response is
replayed — same status and body plus `X-Idempotent-Replay: true` — and
the handler does not run again (so it ran exactly once across the two
calls); with a different request hash the reply is 409 and the handler
does not run. -/
theorem C3_idempotency (verify : String → String → Bool)
    (defaultTtl idemTtlMs nowMs nowMs2 : Int) (freshNonce freshNonce2 : String)
    (pricing : PricingConfig) (req req2 : GateRequest) (handler handler2 : GateReply)
    (st : GateState) (key : String)
    (hkey : req.idempotencyKey = some key) (hkne : key ≠ "")
    (hkey2 : req2.idempotencyKey = some key)
    (hmiss : st.idem.find? (fun e => e.1 == key) = none)
    (hpass : (gateStep verify defaultTtl nowMs freshNonce (some pricing) req st).1
      = .pass true)
    (hfresh : ¬ nowMs2 > nowMs + idemTtlMs) :
    (gateRound verify defaultTtl idemTtlMs nowMs freshNonce (some pricing) req handler st).1
        = handler
    ∧ (gateRound verify defaultTtl idemTtlMs nowMs freshNonce (some pricing) req handler
        st).2.1 = true
    ∧ (computeRequestHash req2.method req2.pathname req2.rawQuery req2.rawBody
          = computeRequestHash req.method req.pathname req.rawQuery req.rawBody →
        (gateRound verify defaultTtl idemTtlMs nowMs2 freshNonce2 (some pricing) req2 handler2
            (gateRound verify defaultTtl idemTtlMs nowMs freshNonce (some pricing) req handler
              st).2.2).1
          = ⟨handler.status, handler.body, [("x-idempotent-replay", "true")]⟩
        ∧ (gateRound verify defaultTtl idemTtlMs nowMs2 freshNonce2 (some pricing) req2
            handler2 (gateRound verify defaultTtl idemTtlMs nowMs freshNonce (some pricing)
              req handler st).2.2).2.1 = false)
    ∧ (computeRequestHash req2.method req2.pathname req2.rawQuery req2.rawBody
          ≠ computeRequestHash req.method req.pathname req.rawQuery req.rawBody →
        (gateRound verify defaultTtl idemTtlMs nowMs2 freshNonce2 (some pricing) req2 handler2
            (gateRound verify defaultTtl idemTtlMs nowMs freshNonce (some pricing) req handler
              st).2.2).1.status = 409
        ∧ (gateRound verify defaultTtl idemTtlMs nowMs2 freshNonce2 (some pricing) req2
            handler2 (gateRound verify defaultTtl idemTtlMs nowMs freshNonce (some pricing)
              req handler st).2.2).2.1 = false) := by
  have hidem1 : (gateStep verify defaultTtl nowMs freshNonce (some pricing) req st).2.idem
      = st.idem := by
    rw [gateStep_idem_miss verify defaultTtl nowMs freshNonce pricing req st key hkey hkne
      hmiss]
  have hround1 : gateRound verify defaultTtl idemTtlMs nowMs freshNonce (some pricing) req
      handler st
      = (handler, true,
         ⟨(gateStep verify defaultTtl nowMs freshNonce (some pricing) req st).2.usedNonces,
          idemSet nowMs idemTtlMs st.idem key
            ⟨computeRequestHash req.method req.pathname req.rawQuery req.rawBody,
             handler.status, handler.body, []⟩⟩) := by
    simp only [gateRound, hpass, if_true, hkey, Option.getD_some, hidem1]
  have hany : st.idem.any (fun e => e.1 == key) = false := by
    rw [List.any_eq_false]
    intro x hx
    exact List.find?_eq_none.mp hmiss x hx
  have hset : idemSet nowMs idemTtlMs st.idem key
      ⟨computeRequestHash req.method req.pathname req.rawQuery req.rawBody,
       handler.status, handler.body, []⟩
      = st.idem ++ [(key,
          ⟨⟨computeRequestHash req.method req.pathname req.rawQuery req.rawBody,
            handler.status, handler.body, []⟩, nowMs + idemTtlMs⟩)] := by
    simp only [idemSet, mapSetStr, hany, Bool.false_eq_true, if_false]
  have hfind : (st.idem ++ [(key,
      (⟨⟨computeRequestHash req.method req.pathname req.rawQuery req.rawBody,
        handler.status, handler.body, []⟩, nowMs + idemTtlMs⟩ : IdemEntry))]).find?
        (fun e => e.1 == key)
      = some (key, ⟨⟨computeRequestHash req.method req.pathname req.rawQuery req.rawBody,
          handler.status, handler.body, []⟩, nowMs + idemTtlMs⟩) := by
    rw [List.find?_append, hmiss]
    simp
  have hget : idemGet nowMs2 (st.idem ++ [(key,
      (⟨⟨computeRequestHash req.method req.pathname req.rawQuery req.rawBody,
        handler.status, handler.body, []⟩, nowMs + idemTtlMs⟩ : IdemEntry))]) key
      = (some ⟨computeRequestHash req.method req.pathname req.rawQuery req.rawBody,
          handler.status, handler.body, []⟩,
         st.idem ++ [(key,
          ⟨⟨computeRequestHash req.method req.pathname req.rawQuery req.rawBody,
            handler.status, handler.body, []⟩, nowMs + idemTtlMs⟩)]) := by
    simp only [idemGet, hfind]
    rw [if_neg hfresh]
  have htr2 : strTruthy (some key) = true := by simp [strTruthy, hkne]
  refine ⟨by rw [hround1], by rw [hround1], ?_, ?_⟩
  · intro hsame
    rw [hround1]
    simp only [gateRound, gateStep, htr2, if_true, hkey2, Option.getD_some, hset, hget,
      hsame, beq_self_eq_true, if_true, List.nil_append]
    exact ⟨trivial, trivial⟩
  · intro hdiff
    rw [hround1]
    have hbeq : ((computeRequestHash req.method req.pathname req.rawQuery req.rawBody :
        String) == computeRequestHash req2.method req2.pathname req2.rawQuery req2.rawBody)
        = false := beq_eq_false_iff_ne.mpr (Ne.symm hdiff)
    simp only [gateRound, gateStep, htr2, if_true, hkey2, Option.getD_some, hset, hget, hbeq,
      Bool.false_eq_true, if_false]
    exact ⟨trivial, trivial⟩

/-- The first idempotent request: key `K1`, an opaque proof header whose
decode fails (the verifier accepts it). -/
def c3Req : GateRequest := ⟨"GET", "/weather", "city=London", [], some "K1", some "%%"⟩

/-- A conflicting request under the same key (different path, hence a
different request hash). -/
def c3ReqB : GateRequest := ⟨"GET", "/other", "", [], some "K1", some "%%"⟩

/-- The handler replies of the two calls. -/
def c3Handler : GateReply := ⟨200, .obj [("ok", .bool true)], []⟩

/-- A second handler reply (never sent in the replay/conflict cases). -/
def c3Handler2 : GateReply := ⟨200, .obj [("ok2", .bool true)], []⟩

/-- Witness for C3 at concrete inputs: the replay and the conflict. -/
theorem C3_idempotency_witness :
    (gateRound (fun _ _ => true) 300 3600000 1760140900000 "F2" (some gatePricing) c3Req
        c3Handler2 (gateRound (fun _ _ => true) 300 3600000 1760140800000 "F1"
          (some gatePricing) c3Req c3Handler ⟨[], []⟩).2.2).1
      = ⟨c3Handler.status, c3Handler.body, [("x-idempotent-replay", "true")]⟩
    ∧ (gateRound (fun _ _ => true) 300 3600000 1760140900000 "F2" (some gatePricing) c3Req
        c3Handler2 (gateRound (fun _ _ => true) 300 3600000 1760140800000 "F1"
          (some gatePricing) c3Req c3Handler ⟨[], []⟩).2.2).2.1 = false
    ∧ (gateRound (fun _ _ => true) 300 3600000 1760140900000 "F2" (some gatePricing) c3ReqB
        c3Handler2 (gateRound (fun _ _ => true) 300 3600000 1760140800000 "F1"
          (some gatePricing) c3Req c3Handler ⟨[], []⟩).2.2).1.status = 409 :=
  ⟨((C3_idempotency (fun _ _ => true) 300 3600000 1760140800000 1760140900000 "F1" "F2"
      gatePricing c3Req c3Req c3Handler c3Handler2 ⟨[], []⟩ "K1"
      rfl (by decide) rfl rfl rfl (by decide)).2.2.1 rfl).1,
   ((C3_idempotency (fun _ _ => true) 300 3600000 1760140800000 1760140900000 "F1" "F2"
      gatePricing c3Req c3Req c3Handler c3Handler2 ⟨[], []⟩ "K1"
      rfl (by decide) rfl rfl rfl (by decide)).2.2.1 rfl).2,
   ((C3_idempotency (fun _ _ => true) 300 3600000 1760140800000 1760140900000 "F1" "F2"
      gatePricing c3Req c3ReqB c3Handler c3Handler2 ⟨[], []⟩ "K1"
      rfl (by decide) rfl rfl rfl (by decide)).2.2.2 (by decide)).1⟩

end X402
